import Mathlib

/-!
Verification of the response-normalization, pagination, formatting and
error-classification core of the chorus-mcp-server repository.

The TypeScript sources are shallowly embedded:
* JavaScript values reaching this layer are modelled by the inductive
  type `Json` (with an explicit `undef` constructor, since the code
  distinguishes `undefined` from `null` via `??` and `?.`).
* JavaScript strings are modelled as `List Char`; `chars` injects Lean
  string literals.
* Functions that can throw (`normalizeResponse` can evaluate the `in`
  operator on a primitive) return `Except String _`; everything else is
  a pure total function, mirroring the synchronous pure code.

Sources embedded: `src/services/api-client.ts` (flattenRecord,
isJsonApiList, isJsonApiSingle, normalizeResponse),
`src/services/formatters.ts` (truncateResponse, buildPaginatedResponse,
formatOutput), `src/services/error-handler.ts` (handleApiError), and
`src/constants.ts` (CHARACTER_LIMIT, ResponseFormat).
-/

namespace Chorus

/-- Model of a JavaScript value as it appears in the API boundary layer.
`undef` models the JavaScript value `undefined`; numbers are modelled as
integers (the payloads the layer manipulates are ids, counts, offsets and
totals). Object fields are an insertion-ordered association list with
unique keys, as in a JavaScript object. -/
inductive Json where
  | undef
  | null
  | bool (b : Bool)
  | num (n : Int)
  | str (s : List Char)
  | arr (elems : List Json)
  | obj (fields : List (List Char × Json))

/-- Characters of a Lean string literal, used to write JavaScript string
constants from the source. -/
def chars (s : String) : List Char := s.data

theorem sizeOf_snd_lt_of_mem {fs : List (List Char × Json)} {p : List Char × Json}
    (h : p ∈ fs) : sizeOf p.2 < sizeOf fs := by
  have h1 := List.sizeOf_lt_of_mem h
  have h2 : sizeOf p.2 < sizeOf p := by cases p; simp
  omega

/-- Induction over `Json` with member hypotheses for arrays and objects. -/
def Json.recAll {motive : Json → Prop}
    (hundef : motive .undef)
    (hnull : motive .null)
    (hbool : ∀ b, motive (.bool b))
    (hnum : ∀ n, motive (.num n))
    (hstr : ∀ s, motive (.str s))
    (harr : ∀ xs, (∀ x ∈ xs, motive x) → motive (.arr xs))
    (hobj : ∀ fs, (∀ p ∈ fs, motive p.2) → motive (.obj fs)) :
    ∀ v, motive v
  | .undef => hundef
  | .null => hnull
  | .bool b => hbool b
  | .num n => hnum n
  | .str s => hstr s
  | .arr xs => harr xs (fun x _ => Json.recAll hundef hnull hbool hnum hstr harr hobj x)
  | .obj fs => hobj fs (fun p _ => Json.recAll hundef hnull hbool hnum hstr harr hobj p.2)
termination_by v => sizeOf v
decreasing_by
  · exact Nat.lt_trans (List.sizeOf_lt_of_mem (by assumption)) (by simp)
  · exact Nat.lt_trans (sizeOf_snd_lt_of_mem (by assumption)) (by simp)

/-! ## JavaScript primitive operations -/

/-- Association-list lookup, first (and only, keys being unique) match. -/
def lookupField : List (List Char × Json) → List Char → Option Json
  | [], _ => none
  | (k, v) :: fs, key => if k = key then some v else lookupField fs key

/-- Property read `v.k` on a value known not to be `null`/`undefined`
(the embedded code only reads properties behind such guards). Arrays have
no properties named by the keys this layer reads. -/
def jsGet (v : Json) (key : List Char) : Json :=
  match v with
  | .obj fs => (lookupField fs key).getD .undef
  | _ => (.undef : Json)

/-- Optional chaining `v?.k`: short-circuits to `undefined` on
`null`/`undefined`, otherwise an ordinary property read. -/
def optChain (v : Json) (key : List Char) : Json :=
  match v with
  | .null => .undef
  | .undef => .undef
  | _ => jsGet v key

/-- `v == null` in the nullish-coalescing sense: `null` or `undefined`. -/
def nullish (v : Json) : Bool :=
  match v with
  | .null => true
  | .undef => true
  | _ => false

/-- Nullish coalescing `a ?? b`. -/
def coalesce (a b : Json) : Json := if nullish a then b else a

/-- JavaScript truthiness of a value. -/
def truthy (v : Json) : Bool :=
  match v with
  | .undef => false
  | .null => false
  | .bool b => b
  | .num n => n ≠ 0
  | .str s => s ≠ []
  | .arr _ => true
  | .obj _ => true

/-- The `in` operator, `key in v`. It throws a `TypeError` when applied
to a primitive; on objects it tests key presence, and on arrays the keys
read by this layer (non-numeric, not `length`) are never present. -/
def jsIn (key : List Char) (v : Json) : Except String Bool :=
  match v with
  | .obj fs => .ok (fs.any (fun p => p.1 = key))
  | .arr _ => .ok false
  | _ => .error "TypeError"

/-- Property assignment into an object literal being built: an existing
key is overwritten in place, a new key is appended. -/
def setField (fields : List (List Char × Json)) (key : List Char) (v : Json) :
    List (List Char × Json) :=
  if fields.any (fun p => p.1 = key) then
    fields.map (fun p => if p.1 = key then (key, v) else p)
  else fields ++ [(key, v)]

/-- The own enumerable entries contributed by spreading `v` into an
object literal: objects spread their fields, arrays and strings their
indexed elements, primitives nothing. -/
def spreadEntries (v : Json) : List (List Char × Json) :=
  match v with
  | .obj fs => fs
  | .arr xs => (xs.enum.map (fun p => (chars (toString p.1), p.2)))
  | .str s => (s.enum.map (fun p => (chars (toString p.1), Json.str [p.2])))
  | _ => []

/-- Spreading `v` after the listed fields in an object literal:
`\x7b ...fields, ...v \x7d`. -/
def spreadInto (fields : List (List Char × Json)) (v : Json) :
    List (List Char × Json) :=
  (spreadEntries v).foldl (fun acc p => setField acc p.1 p.2) fields

/-! ## Decimal rendering of numbers (JavaScript `String(n)` for integers) -/

/-- Decimal digit character. -/
def decChar (d : Nat) : Char := Char.ofNat (48 + d)

/-- Decimal numeral of a natural number, most significant digit first. -/
def printNat (n : Nat) : List Char :=
  if n = 0 then ['0'] else ((Nat.digits 10 n).map decChar).reverse

/-- Decimal numeral of an integer, as produced by JavaScript string
interpolation and `JSON.stringify` for integral numbers. -/
def printInt : Int → List Char
  | .ofNat n => printNat n
  | .negSucc n => '-' :: printNat (n + 1)

/-- JavaScript `String(v)` conversion as used for thrown values and
upstream error messages: strings pass through, numbers render in
decimal, arrays join their elements with commas (nullish elements
becoming empty), plain objects render as `[object Object]`. -/
def jsToString : Json → List Char
  | .undef => chars "undefined"
  | .null => chars "null"
  | .bool b => if b then chars "true" else chars "false"
  | .num n => printInt n
  | .str s => s
  | .arr xs =>
      List.intercalate [',']
        (xs.attach.map (fun x => if nullish x.1 then [] else jsToString x.1))
  | .obj _ => chars "[object Object]"
termination_by v => sizeOf v
decreasing_by
  exact Nat.lt_trans (List.sizeOf_lt_of_mem x.2) (by simp)

/-! ## `src/services/api-client.ts` -/

/-- `flattenRecord` (api-client.ts): flatten a JSON:API record into a
plain object, `\x7b id: record.id, ...record.attributes \x7d`. The `id`
entry is written first and the attribute bag is spread after it. -/
def flattenRecord (record : Json) : Json :=
  .obj (spreadInto [(chars "id", jsGet record (chars "id"))]
    (jsGet record (chars "attributes")))

/-- `isJsonApiList` (api-client.ts): the body is an object whose `data`
is a non-empty array whose first element has an `attributes` property.
Evaluating `"attributes" in data[0]` throws when the first element is a
primitive, hence the `Except`. -/
def isJsonApiList (body : Json) : Except String Bool :=
  match body with
  | .obj fs =>
      match lookupField fs (chars "data") with
      | some (.arr (first :: _)) => jsIn (chars "attributes") first
      | _ => .ok false
  | _ => .ok false

/-- `isJsonApiSingle` (api-client.ts): the body is an object whose
`data` is itself a non-null non-array object with an `attributes`
property. All `in` uses are guarded by object checks, so this never
throws. -/
def isJsonApiSingle (body : Json) : Bool :=
  match body with
  | .obj fs =>
      match lookupField fs (chars "data") with
      | some (.obj dfs) => dfs.any (fun p => p.1 = chars "attributes")
      | _ => false
  | _ => false

/-- `normalizeResponse` (api-client.ts): auto-normalize a response body.
A JSON:API list becomes `\x7b items, total, cursor \x7d` (total from
`meta?.page?.total ?? items.length`, cursor from `meta?.page?.cursor`),
a JSON:API single record is flattened, an empty `data` array becomes
`\x7b items: [], total: 0 \x7d`, and anything else passes through. -/
def normalizeResponse (body : Json) : Except String Json := do
  let isList ← isJsonApiList body
  if isList then
    match body with
    | .obj fs =>
        match lookupField fs (chars "data") with
        | some (.arr records) =>
            let items := records.map flattenRecord
            let page := optChain (jsGet body (chars "meta")) (chars "page")
            return .obj [
              (chars "items", .arr items),
              (chars "total", coalesce (optChain page (chars "total"))
                (.num items.length)),
              (chars "cursor", optChain page (chars "cursor"))]
        | _ => return body
    | _ => return body
  else if isJsonApiSingle body then
    match body with
    | .obj fs =>
        match lookupField fs (chars "data") with
        | some d => return flattenRecord d
        | _ => return body
    | _ => return body
  else
    match body with
    | .obj fs =>
        match lookupField fs (chars "data") with
        | some (.arr []) =>
            return .obj [(chars "items", .arr []), (chars "total", .num 0)]
        | _ => return body
    | _ => return body

/-! ## `src/constants.ts` -/

/-- `CHARACTER_LIMIT` (constants.ts). -/
def CHARACTER_LIMIT : Nat := 25000

/-- `ResponseFormat` (constants.ts). -/
inductive ResponseFormat where
  | markdown
  | json

/-! ## `src/services/formatters.ts` -/

/-- The fixed notice appended by `truncateResponse`. -/
def truncationNotice : List Char :=
  chars "\n\n---\n*Response truncated. Use `limit` and `offset` parameters or add filters to see more results.*"

/-- `truncateResponse` (formatters.ts): return text unchanged when it is
within the character limit, otherwise slice to the limit and append the
truncation notice. -/
def truncateResponse (text : List Char) : List Char :=
  if text.length ≤ CHARACTER_LIMIT then text
  else text.take CHARACTER_LIMIT ++ truncationNotice

/-- `PaginatedResponse` (types.ts). `next_offset` is optional; absence
of the key is modelled as `none`. -/
structure PaginatedResponse (T : Type) where
  total : Int
  count : Nat
  offset : Int
  items : List T
  has_more : Bool
  next_offset : Option Int

/-- `buildPaginatedResponse` (formatters.ts). The `next_offset` key is
conditionally spread into the literal exactly when
`total > offset + items.length`. -/
def buildPaginatedResponse {T : Type} (items : List T) (total : Int) (offset : Int) :
    PaginatedResponse T :=
  { total := total
    count := items.length
    offset := offset
    items := items
    has_more := total > offset + items.length
    next_offset :=
      if total > offset + (items.length : Int) then some (offset + items.length)
      else none }

/-! ## `JSON.stringify(data, null, 2)`

Model of the ECMAScript serializer at gap two spaces, on the `Json`
fragment: `undefined` serializes to nothing (`none`), object members
whose value serializes to nothing are skipped, array holes of that kind
render as `null`. -/

/-- Lowercase hexadecimal digit character. -/
def hexChar (d : Nat) : Char :=
  if d < 10 then Char.ofNat (48 + d) else Char.ofNat (87 + d)

/-- Escape of one character inside a JSON string literal, as produced by
`JSON.stringify`: the two-character shorthands, `\u00xx` for the other
control characters, everything else verbatim. -/
def escChar (c : Char) : List Char :=
  if c = '"' then ['\\', '"']
  else if c = '\\' then ['\\', '\\']
  else if c = '\x08' then ['\\', 'b']
  else if c = '\x0c' then ['\\', 'f']
  else if c = '\n' then ['\\', 'n']
  else if c = '\r' then ['\\', 'r']
  else if c = '\t' then ['\\', 't']
  else if c.toNat < 32 then
    ['\\', 'u', '0', '0', hexChar (c.toNat / 16), hexChar (c.toNat % 16)]
  else [c]

/-- A JSON string literal for `s`. -/
def quoteJson (s : List Char) : List Char :=
  '"' :: s.flatMap escChar ++ ['"']

/-- Indentation at nesting depth `ind` (gap of two spaces). -/
def indentChars (ind : Nat) : List Char := List.replicate (2 * ind) ' '

/-- Serialize a value at nesting depth `ind`; `none` for `undefined`. -/
def serVal (ind : Nat) : Json → Option (List Char)
  | .undef => none
  | .null => some (chars "null")
  | .bool b => some (if b then chars "true" else chars "false")
  | .num n => some (printInt n)
  | .str s => some (quoteJson s)
  | .arr [] => some (chars "[]")
  | .arr (x0 :: xs) =>
      let items := (x0 :: xs).attach.map
        (fun x => (serVal (ind + 1) x.1).getD (chars "null"))
      some ('[' :: '\n' :: indentChars (ind + 1) ++
        List.intercalate (',' :: '\n' :: indentChars (ind + 1)) items ++
        '\n' :: indentChars ind ++ [']'])
  | .obj fs =>
      let members := (fs.attach.map
        (fun p => (serVal (ind + 1) p.1.2).map
          (fun s => quoteJson p.1.1 ++ chars ": " ++ s))).reduceOption
      match members with
      | [] => some ['{', '}']
      | _ =>
          some ('{' :: '\n' :: indentChars (ind + 1) ++
            List.intercalate (',' :: '\n' :: indentChars (ind + 1)) members ++
            '\n' :: indentChars ind ++ ['}'])
termination_by v => sizeOf v
decreasing_by
  · exact Nat.lt_trans (List.sizeOf_lt_of_mem x.2) (by simp)
  · exact Nat.lt_trans (sizeOf_snd_lt_of_mem p.2) (by simp)

/-- `JSON.stringify(data, null, 2)`: top-level serialization; `none`
models the JavaScript call returning `undefined`. -/
def jsonStringify (data : Json) : Option (List Char) := serVal 0 data

/-- `formatOutput` (formatters.ts). The caller-supplied markdown
formatter is a pure thunk, modelled by the string it produces. In JSON
mode, `JSON.stringify(data, null, 2)` returning `undefined` would make
the subsequent `.length` read throw; that surfaces as the `Except`
error. -/
def formatOutput (data : Json) (markdownText : List Char)
    (responseFormat : ResponseFormat) : Except String (List Char) :=
  match responseFormat with
  | .markdown => .ok (truncateResponse markdownText)
  | .json =>
      match jsonStringify data with
      | some text => .ok (truncateResponse text)
      | none => .error "TypeError"

/-! ## `src/services/error-handler.ts` -/

/-- The `response` carried by an axios error that got an HTTP reply. -/
structure AxiosResponse where
  status : Int
  data : Json

/-- A value reaching the `catch` block: an axios error (with an optional
HTTP response, an optional transport code, and its `message`), some
other `Error` instance (its `message`), or an arbitrary thrown value. -/
inductive ThrownValue where
  | axiosErr (response : Option AxiosResponse) (code : Option (List Char))
      (message : List Char)
  | errObj (message : List Char)
  | rawValue (v : Json)

/-- The upstream message extraction in `handleApiError`:
`typeof data === "object" && data !== null ? data.message ?? data.error
?? "" : ""`. Arrays are `typeof "object"` and carry neither key. -/
def extractMessage (data : Json) : Json :=
  match data with
  | .obj _ => coalesce (jsGet data (chars "message"))
      (coalesce (jsGet data (chars "error")) (.str []))
  | .arr _ => coalesce (jsGet data (chars "message"))
      (coalesce (jsGet data (chars "error")) (.str []))
  | _ => .str []

/-- `handleApiError` (error-handler.ts): map a thrown value to a fixed
user-facing message string. An axios error with a response is mapped by
status; one without a response by transport code; everything else (and
axios errors with an unrecognized code) falls through to the generic
message built from `error.message` or `String(error)`. -/
def handleApiError : ThrownValue → List Char
  | .axiosErr (some resp) _ _ =>
      let message := extractMessage resp.data
      if resp.status = 400 then
        chars "Error: Bad request. " ++
          (if truthy message then jsToString message
           else chars "Check your parameters and try again.")
      else if resp.status = 401 then
        chars "Error: Authentication failed. Check your CHORUS_API_KEY environment variable. Generate a token from Chorus Personal Settings."
      else if resp.status = 403 then
        chars "Error: Access denied. Your API key may lack permissions for this resource, or the recording is marked as private."
      else if resp.status = 404 then
        chars "Error: Resource not found. Verify the ID is correct and that you have access to this resource."
      else if resp.status = 429 then
        chars "Error: Rate limit exceeded. Wait a moment before making more requests."
      else if resp.status ≥ 500 then
        chars "Error: Chorus API server error (" ++ printInt resp.status ++
          chars "). Try again later."
      else
        chars "Error: API request failed with status " ++ printInt resp.status ++
          chars ". " ++ (if truthy message then jsToString message else [])
  | .axiosErr none (some code) message =>
      if code = chars "ECONNABORTED" then
        chars "Error: Request timed out. The Chorus API did not respond within 30 seconds. Try again."
      else if code = chars "ECONNREFUSED" then
        chars "Error: Could not connect to the Chorus API. Check your network connection."
      else
        chars "Error: Unexpected error occurred: " ++ message
  | .axiosErr none none message =>
      chars "Error: Unexpected error occurred: " ++ message
  | .errObj message =>
      chars "Error: Unexpected error occurred: " ++ message
  | .rawValue v =>
      chars "Error: Unexpected error occurred: " ++ jsToString v

/-! ## Helper lemmas on association-list objects -/

theorem lookupField_map_overwrite (ps : List (List Char × Json)) (k : List Char)
    (v : Json) (key : List Char) (h : k ≠ key) :
    lookupField (ps.map (fun p => if p.1 = k then (k, v) else p)) key =
      lookupField ps key := by
  induction ps with
  | nil => rfl
  | cons p ps ih =>
      rw [List.map_cons]
      by_cases hk : p.1 = k
      · rw [if_pos hk]
        show lookupField ((k, v) :: _) key = lookupField (p :: ps) key
        simp only [lookupField]
        rw [if_neg h, if_neg (show p.1 ≠ key by rw [hk]; exact h)]
        exact ih
      · rw [if_neg hk]
        show lookupField (p :: _) key = lookupField (p :: ps) key
        simp only [lookupField]
        split
        · rfl
        · exact ih

theorem lookupField_append_single_ne (ps : List (List Char × Json)) (k : List Char)
    (v : Json) (key : List Char) (h : k ≠ key) :
    lookupField (ps ++ [(k, v)]) key = lookupField ps key := by
  induction ps with
  | nil => simp only [List.nil_append, lookupField]; rw [if_neg h]
  | cons p ps ih =>
      simp only [List.cons_append, lookupField]
      split
      · rfl
      · exact ih

theorem lookupField_setField_ne (acc : List (List Char × Json)) (k : List Char)
    (v : Json) (key : List Char) (h : k ≠ key) :
    lookupField (setField acc k v) key = lookupField acc key := by
  unfold setField
  split
  · exact lookupField_map_overwrite acc k v key h
  · exact lookupField_append_single_ne acc k v key h

theorem lookupField_spreadInto_obj_of_not_mem (base : List (List Char × Json))
    (attrs : List (List Char × Json)) (key : List Char)
    (h : ∀ p ∈ attrs, p.1 ≠ key) :
    lookupField (spreadInto base (.obj attrs)) key = lookupField base key := by
  unfold spreadInto spreadEntries
  induction attrs generalizing base with
  | nil => rfl
  | cons p ps ih =>
      rw [List.foldl_cons]
      rw [ih (setField base p.1 p.2) (fun q hq => h q (by simp [hq]))]
      exact lookupField_setField_ne base p.1 p.2 key (h p (by simp))

theorem setField_keeps_key (acc : List (List Char × Json)) (k : List Char)
    (v : Json) (key : List Char) (h : acc.any (fun p => p.1 = key) = true) :
    (setField acc k v).any (fun p => p.1 = key) = true := by
  unfold setField
  split
  · rcases List.any_eq_true.mp h with ⟨p, hp, hpk⟩
    refine List.any_eq_true.mpr ?_
    by_cases hk : p.1 = k
    · exact ⟨(k, v), List.mem_map.mpr ⟨p, hp, by rw [if_pos hk]⟩,
        by simp only [decide_eq_true_eq] at hpk ⊢; rw [← hpk, hk]⟩
    · exact ⟨p, List.mem_map.mpr ⟨p, hp, by rw [if_neg hk]⟩, hpk⟩
  · rcases List.any_eq_true.mp h with ⟨p, hp, hpk⟩
    exact List.any_eq_true.mpr ⟨p, List.mem_append_left _ hp, hpk⟩

theorem spreadInto_keeps_key (base : List (List Char × Json)) (v : Json)
    (key : List Char) (h : base.any (fun p => p.1 = key) = true) :
    (spreadInto base v).any (fun p => p.1 = key) = true := by
  unfold spreadInto
  induction spreadEntries v generalizing base with
  | nil => exact h
  | cons p ps ih => exact ih _ (setField_keeps_key base p.1 p.2 key h)

/-- Shared core of C1 and C4: flattening a record whose attribute bag
has no `id` attribute yields the record's own identifier. -/
theorem flatten_id_of_no_collision (rfs : List (List Char × Json)) (rid : Json)
    (attrs : List (List Char × Json))
    (hid : lookupField rfs (chars "id") = some rid)
    (hattrs : lookupField rfs (chars "attributes") = some (.obj attrs))
    (hfree : ∀ p ∈ attrs, p.1 ≠ chars "id") :
    jsGet (flattenRecord (.obj rfs)) (chars "id") = rid := by
  unfold flattenRecord jsGet
  simp only [jsGet, hid, hattrs, Option.getD_some]
  rw [lookupField_spreadInto_obj_of_not_mem _ _ _ hfree]
  simp [lookupField]

/-- Flattening always yields an object that has an `id` key. -/
theorem flatten_has_id_key (r : Json) :
    ∃ ofs, flattenRecord r = .obj ofs ∧
      ofs.any (fun p => p.1 = chars "id") = true := by
  refine ⟨_, rfl, ?_⟩
  exact spreadInto_keeps_key _ _ _ (by simp)

/-! ## Claim C1 -/

/-- A record whose attribute bag contains an `id` attribute that differs
from the record's own identifier. -/
def collidingRecord : Json :=
  .obj [(chars "id", .str (chars "a")),
        (chars "type", .str (chars "call")),
        (chars "attributes", .obj [(chars "id", .str (chars "b"))])]

/-- C1 counterexample: the identifier is written before the attribute
bag is spread, so a same-named attribute silently overwrites it. On a
record with identifier "a" and an attribute bag carrying id "b", the
flattened record's `id` is "b", not "a". -/
theorem C1_flatten_id_overwritten :
    jsGet collidingRecord (chars "id") = .str (chars "a") ∧
    jsGet (flattenRecord collidingRecord) (chars "id") = .str (chars "b") ∧
    chars "a" ≠ chars "b" :=
  ⟨rfl, rfl, by decide⟩

/-- C1 (amended): flattening writes the identifier field before the
attribute bag is spread, so the resulting record's `id` equals the
record's own identifier exactly when the attribute bag contains no field
named `id`; a same-named attribute overwrites the identifier. -/
theorem C1_flatten_id_precedence (rfs : List (List Char × Json)) (rid : Json)
    (attrs : List (List Char × Json))
    (hid : lookupField rfs (chars "id") = some rid)
    (hattrs : lookupField rfs (chars "attributes") = some (.obj attrs))
    (hfree : ∀ p ∈ attrs, p.1 ≠ chars "id") :
    jsGet (flattenRecord (.obj rfs)) (chars "id") = rid :=
  flatten_id_of_no_collision rfs rid attrs hid hattrs hfree

/-- C1 witness: a concrete record whose bag has no `id` attribute. -/
theorem C1_flatten_id_precedence_witness :
    jsGet (flattenRecord (.obj [(chars "id", .str (chars "x")),
      (chars "attributes", .obj [(chars "name", .str (chars "n"))])]))
      (chars "id") = .str (chars "x") :=
  C1_flatten_id_precedence _ _ _ rfl rfl (by decide)

/-! ## Claim C2 -/

/-- C2: the pagination window built by `buildPaginatedResponse`
satisfies `count = items.length`, `has_more ↔ total > offset + count`,
and `next_offset` is present iff `has_more`, in which case it equals
`offset + count`. -/
theorem C2_buildPaginatedResponse_window {T : Type} (items : List T)
    (total offset : Int) :
    (buildPaginatedResponse items total offset).count = items.length ∧
    ((buildPaginatedResponse items total offset).has_more = true ↔
      total > offset + items.length) ∧
    ((buildPaginatedResponse items total offset).next_offset.isSome = true ↔
      (buildPaginatedResponse items total offset).has_more = true) ∧
    (buildPaginatedResponse items total offset).next_offset =
      (if total > offset + (items.length : Int) then
        some (offset + (buildPaginatedResponse items total offset).count)
      else none) := by
  refine ⟨rfl, by simp [buildPaginatedResponse], ?_, rfl⟩
  by_cases h : total > offset + (items.length : Int) <;>
    simp [buildPaginatedResponse, h]

/-! ## Claim C5 -/

/-- C5: inputs at or under the character budget pass through unchanged;
longer inputs are cut to the budget with the fixed truncation notice
appended, so the output length is at most the budget plus the notice
length and the output ends with the notice. -/
theorem C5_truncateResponse_spec (text : List Char) :
    (text.length ≤ CHARACTER_LIMIT → truncateResponse text = text) ∧
    (CHARACTER_LIMIT < text.length →
      (truncateResponse text).length ≤
        CHARACTER_LIMIT + truncationNotice.length ∧
      ∃ kept, truncateResponse text = kept ++ truncationNotice) := by
  constructor
  · intro h
    simp [truncateResponse, h]
  · intro h
    rw [truncateResponse, if_neg (by omega)]
    refine ⟨?_, _, rfl⟩
    simp [List.length_take]

/-- C5 witness: an input one thousand characters over the budget. -/
theorem C5_truncateResponse_witness :
    (truncateResponse (List.replicate (CHARACTER_LIMIT + 1000) 'x')).length ≤
      CHARACTER_LIMIT + truncationNotice.length ∧
    ∃ kept, truncateResponse (List.replicate (CHARACTER_LIMIT + 1000) 'x') =
      kept ++ truncationNotice :=
  (C5_truncateResponse_spec _).2 (by simp)

/-! ## Claim C6 -/

/-- C6 counterexample: formatted output is not bounded by the character
budget itself: a markdown rendering one thousand characters over the
budget formats to a string strictly longer than the budget (the
truncation notice is appended after cutting at the budget). -/
theorem C6_output_can_exceed_limit :
    ∃ out, formatOutput (.num 1) (List.replicate (CHARACTER_LIMIT + 1000) 'x')
        .markdown = .ok out ∧ CHARACTER_LIMIT < out.length := by
  refine ⟨_, rfl, ?_⟩
  rw [truncateResponse, if_neg (by simp)]
  simp [List.length_take]
  have : 0 < truncationNotice.length := by decide
  omega

/-- C6 (amended): every formatted output string has length at most the
character budget plus the length of the fixed truncation notice, for
every input value, renderer and output mode. -/
theorem C6_output_length_bounded (data : Json) (markdownText : List Char)
    (responseFormat : ResponseFormat) (out : List Char)
    (h : formatOutput data markdownText responseFormat = .ok out) :
    out.length ≤ CHARACTER_LIMIT + truncationNotice.length := by
  have bound : ∀ s : List Char,
      (truncateResponse s).length ≤ CHARACTER_LIMIT + truncationNotice.length := by
    intro s
    unfold truncateResponse
    split
    · omega
    · simp [List.length_take]
  cases responseFormat with
  | markdown =>
      simp only [formatOutput, Except.ok.injEq] at h
      exact h ▸ bound markdownText
  | json =>
      simp only [formatOutput] at h
      cases hs : jsonStringify data with
      | none => rw [hs] at h; exact absurd h (by simp)
      | some text =>
          rw [hs] at h
          simp only [Except.ok.injEq] at h
          exact h ▸ bound text

/-- C6 witness: the bound at a concrete formatted output. -/
theorem C6_output_length_bounded_witness :
    (truncateResponse []).length ≤ CHARACTER_LIMIT + truncationNotice.length :=
  C6_output_length_bounded .null [] .markdown (truncateResponse []) rfl

/-! ## Claim C10 -/

/-- C10: in markdown mode the formatter's output depends only on the
renderer's string: it is the truncation of that string, for any data
value. -/
theorem C10_markdown_ignores_data (d1 d2 : Json) (markdownText : List Char) :
    formatOutput d1 markdownText .markdown = formatOutput d2 markdownText .markdown ∧
    formatOutput d1 markdownText .markdown = .ok (truncateResponse markdownText) :=
  ⟨rfl, rfl⟩

/-! ## Claim C3 -/

/-- C3: the classifier maps 401 to the authentication-failure message,
404 to not-found, 429 to rate-limited, any status at least 500 to the
server-error message carrying the status, a timeout-coded transport
error to the timeout message, and a plain thrown string to the
unexpected message containing that string. It is a total function by
construction (`handleApiError` is a Lean function on all thrown values
and returns, never throws). -/
theorem C3_handleApiError_classification (d : Json) (code : Option (List Char))
    (m : List Char) (s : Int) :
    handleApiError (.axiosErr (some ⟨401, d⟩) code m) =
      chars "Error: Authentication failed. Check your CHORUS_API_KEY environment variable. Generate a token from Chorus Personal Settings." ∧
    handleApiError (.axiosErr (some ⟨404, d⟩) code m) =
      chars "Error: Resource not found. Verify the ID is correct and that you have access to this resource." ∧
    handleApiError (.axiosErr (some ⟨429, d⟩) code m) =
      chars "Error: Rate limit exceeded. Wait a moment before making more requests." ∧
    (500 ≤ s → handleApiError (.axiosErr (some ⟨s, d⟩) code m) =
      chars "Error: Chorus API server error (" ++ printInt s ++
        chars "). Try again later.") ∧
    handleApiError (.axiosErr none (some (chars "ECONNABORTED")) m) =
      chars "Error: Request timed out. The Chorus API did not respond within 30 seconds. Try again." ∧
    (∀ thrown, handleApiError (.rawValue (.str thrown)) =
      chars "Error: Unexpected error occurred: " ++ thrown) := by
  refine ⟨by norm_num [handleApiError], by norm_num [handleApiError],
    by norm_num [handleApiError], ?_, by simp [handleApiError],
    fun thrown => by simp [handleApiError, jsToString]⟩
  intro hs
  simp only [handleApiError]
  rw [if_neg (by omega), if_neg (by omega), if_neg (by omega),
    if_neg (by omega), if_neg (by omega), if_pos (by omega)]

/-- C3 witness: the classification at concrete inputs, with the
server-error conjunct instantiated at status 503. -/
theorem C3_handleApiError_classification_witness :
    handleApiError (.axiosErr (some ⟨401, .null⟩) none []) =
      chars "Error: Authentication failed. Check your CHORUS_API_KEY environment variable. Generate a token from Chorus Personal Settings." ∧
    handleApiError (.axiosErr (some ⟨404, .null⟩) none []) =
      chars "Error: Resource not found. Verify the ID is correct and that you have access to this resource." ∧
    handleApiError (.axiosErr (some ⟨429, .null⟩) none []) =
      chars "Error: Rate limit exceeded. Wait a moment before making more requests." ∧
    handleApiError (.axiosErr (some ⟨503, .null⟩) none []) =
      chars "Error: Chorus API server error (" ++ printInt 503 ++
        chars "). Try again later." ∧
    handleApiError (.axiosErr none (some (chars "ECONNABORTED")) []) =
      chars "Error: Request timed out. The Chorus API did not respond within 30 seconds. Try again." ∧
    handleApiError (.rawValue (.str (chars "oops"))) =
      chars "Error: Unexpected error occurred: " ++ chars "oops" := by
  have h := C3_handleApiError_classification .null none [] 503
  exact ⟨h.1, h.2.1, h.2.2.1, h.2.2.2.1 (by norm_num), h.2.2.2.2.1,
    h.2.2.2.2.2 (chars "oops")⟩

/-! ## Claim C9 -/

/-- C9 counterexample: the classifier's output is not always a single
line — a thrown string containing a newline is embedded verbatim in the
unexpected-error message. -/
theorem C9_not_single_line :
    '\n' ∈ handleApiError (.rawValue (.str (chars "boom\nbam"))) := by
  have h : handleApiError (.rawValue (.str (chars "boom\nbam"))) =
      chars "Error: Unexpected error occurred: " ++ chars "boom\nbam" := by
    simp [handleApiError, jsToString]
  rw [h, List.mem_append]
  right
  decide

theorem newline_not_mem_printNat (n : Nat) : '\n' ∉ printNat n := by
  unfold printNat
  split
  · decide
  · intro h
    rw [List.mem_reverse] at h
    rcases List.mem_map.mp h with ⟨d, hd, hc⟩
    have hlt : d < 10 := Nat.digits_lt_base (by norm_num) hd
    have hne : decChar d ≠ '\n' := by interval_cases d <;> decide
    exact hne hc

theorem newline_not_mem_printInt (s : Int) : '\n' ∉ printInt s := by
  cases s with
  | ofNat n => exact newline_not_mem_printNat n
  | negSucc n =>
      intro h
      rcases List.mem_cons.mp h with h | h
      · exact absurd h (by decide)
      · exact newline_not_mem_printNat _ h

/-- The strings a thrown value contributes verbatim to the classifier's
output contain no newline. -/
def payloadNewlineFree : ThrownValue → Prop
  | .axiosErr (some resp) _ _ => '\n' ∉ jsToString (extractMessage resp.data)
  | .axiosErr none _ m => '\n' ∉ m
  | .errObj m => '\n' ∉ m
  | .rawValue v => '\n' ∉ jsToString v

/-- C9 (amended): every classifier output begins with the prefix
`Error: `; it is moreover a single line whenever the upstream-provided
message or thrown value embedded in it contains no newline (a newline in
that payload is carried into the output verbatim). -/
theorem error_split (A B m : List Char) (h : A = chars "Error: " ++ B) :
    A ++ m = chars "Error: " ++ (B ++ m) := by
  rw [h, List.append_assoc]

theorem error_split2 (A B m1 m2 : List Char) (h : A = chars "Error: " ++ B) :
    (A ++ m1) ++ m2 = chars "Error: " ++ ((B ++ m1) ++ m2) := by
  rw [h]
  simp [List.append_assoc]

theorem error_split3 (A B m1 m2 m3 : List Char) (h : A = chars "Error: " ++ B) :
    ((A ++ m1) ++ m2) ++ m3 = chars "Error: " ++ (((B ++ m1) ++ m2) ++ m3) := by
  rw [h]
  simp [List.append_assoc]

theorem C9_error_message_shape (e : ThrownValue) :
    (∃ t, handleApiError e = chars "Error: " ++ t) ∧
    (payloadNewlineFree e → '\n' ∉ handleApiError e) := by
  cases e with
  | axiosErr response code m =>
      cases response with
      | some resp =>
          simp only [handleApiError, payloadNewlineFree]
          by_cases h400 : resp.status = 400
          · rw [if_pos h400]
            constructor
            · exact ⟨_, error_split _ (chars "Bad request. ") _ (by decide)⟩
            · intro hp
              rw [List.mem_append]
              push_neg
              refine ⟨by decide, ?_⟩
              split
              · exact hp
              · decide
          · rw [if_neg h400]
            by_cases h401 : resp.status = 401
            · rw [if_pos h401]
              exact ⟨⟨_, rfl⟩, fun _ => by decide⟩
            · rw [if_neg h401]
              by_cases h403 : resp.status = 403
              · rw [if_pos h403]
                exact ⟨⟨_, rfl⟩, fun _ => by decide⟩
              · rw [if_neg h403]
                by_cases h404 : resp.status = 404
                · rw [if_pos h404]
                  exact ⟨⟨_, rfl⟩, fun _ => by decide⟩
                · rw [if_neg h404]
                  by_cases h429 : resp.status = 429
                  · rw [if_pos h429]
                    exact ⟨⟨_, rfl⟩, fun _ => by decide⟩
                  · rw [if_neg h429]
                    by_cases h500 : resp.status ≥ 500
                    · rw [if_pos h500]
                      constructor
                      · exact ⟨_, error_split2 _
                          (chars "Chorus API server error (") _ _ (by decide)⟩
                      · intro _
                        simp only [List.mem_append]
                        push_neg
                        exact ⟨⟨by decide, newline_not_mem_printInt _⟩, by decide⟩
                    · rw [if_neg h500]
                      constructor
                      · exact ⟨_, error_split3 _
                          (chars "API request failed with status ") _ _ _ (by decide)⟩
                      · intro hp
                        simp only [List.mem_append]
                        push_neg
                        refine ⟨⟨⟨by decide, newline_not_mem_printInt _⟩, by decide⟩, ?_⟩
                        split
                        · exact hp
                        · decide
      | none =>
          cases code with
          | none =>
              simp only [handleApiError, payloadNewlineFree]
              constructor
              · exact ⟨_, error_split _ (chars "Unexpected error occurred: ") _
                  (by decide)⟩
              · intro hp
                rw [List.mem_append]
                push_neg
                exact ⟨by decide, hp⟩
          | some c =>
              simp only [handleApiError, payloadNewlineFree]
              by_cases habort : c = chars "ECONNABORTED"
              · rw [if_pos habort]
                exact ⟨⟨_, rfl⟩, fun _ => by decide⟩
              · rw [if_neg habort]
                by_cases hrefused : c = chars "ECONNREFUSED"
                · rw [if_pos hrefused]
                  exact ⟨⟨_, rfl⟩, fun _ => by decide⟩
                · rw [if_neg hrefused]
                  constructor
                  · exact ⟨_, error_split _ (chars "Unexpected error occurred: ") _
                      (by decide)⟩
                  · intro hp
                    rw [List.mem_append]
                    push_neg
                    exact ⟨by decide, hp⟩
  | errObj m =>
      simp only [handleApiError, payloadNewlineFree]
      constructor
      · exact ⟨_, error_split _ (chars "Unexpected error occurred: ") _ (by decide)⟩
      · intro hp
        rw [List.mem_append]
        push_neg
        exact ⟨by decide, hp⟩
  | rawValue v =>
      simp only [handleApiError, payloadNewlineFree]
      constructor
      · exact ⟨_, error_split _ (chars "Unexpected error occurred: ") _ (by decide)⟩
      · intro hp
        rw [List.mem_append]
        push_neg
        exact ⟨by decide, hp⟩

/-- C9 witness: shape of the message for a concrete newline-free thrown
error. -/
theorem C9_error_message_shape_witness :
    (∃ t, handleApiError (.errObj (chars "boom")) = chars "Error: " ++ t) ∧
    '\n' ∉ handleApiError (.errObj (chars "boom")) :=
  ⟨(C9_error_message_shape (.errObj (chars "boom"))).1,
    (C9_error_message_shape (.errObj (chars "boom"))).2
      (by simp only [payloadNewlineFree]; decide)⟩

/-! ## Claim C7 -/

/-- The collection-envelope shape: an object whose `data` is a non-empty
array whose first element is an object carrying an attribute bag. -/
def isCollectionEnvelope (v : Json) : Prop :=
  ∃ fs r rest rfs, v = .obj fs ∧
    lookupField fs (chars "data") = some (.arr (r :: rest)) ∧
    r = .obj rfs ∧ rfs.any (fun p => p.1 = chars "attributes") = true

/-- The single-record-envelope shape: an object whose `data` is itself a
non-null non-array object carrying an attribute bag. -/
def isSingleEnvelope (v : Json) : Prop :=
  ∃ fs dfs, v = .obj fs ∧
    lookupField fs (chars "data") = some (.obj dfs) ∧
    dfs.any (fun p => p.1 = chars "attributes") = true

/-- The empty-collection-envelope shape: an object whose `data` is an
empty array. -/
def isEmptyEnvelope (v : Json) : Prop :=
  ∃ fs, v = .obj fs ∧ lookupField fs (chars "data") = some (.arr [])

/-- When `data` is a non-empty array, its first element is an object or
an array (so the `in` operator applied to it cannot throw). -/
def firstDataElementNotPrimitive (v : Json) : Prop :=
  ∀ fs r rest, v = .obj fs →
    lookupField fs (chars "data") = some (.arr (r :: rest)) →
    (∃ rfs, r = .obj rfs) ∨ (∃ xs, r = .arr xs)

theorem exceptBind_ok {A B : Type} (a : A) (f : A → Except String B) :
    (Except.ok a : Except String A) >>= f = f a := rfl

theorem exceptPure_eq {B : Type} (b : B) :
    (pure b : Except String B) = Except.ok b := rfl

/-- C7 counterexample: an envelope matching none of the three shapes on
which `normalize` nevertheless raises instead of passing it through:
when `data` is a non-empty array whose first element is a primitive, the
shape test evaluates `"attributes" in data[0]` on a primitive and throws
a `TypeError`. -/
theorem C7_normalize_throws_on_primitive_element :
    ¬ isCollectionEnvelope (.obj [(chars "data", .arr [.num 5])]) ∧
    ¬ isSingleEnvelope (.obj [(chars "data", .arr [.num 5])]) ∧
    ¬ isEmptyEnvelope (.obj [(chars "data", .arr [.num 5])]) ∧
    normalizeResponse (.obj [(chars "data", .arr [.num 5])]) =
      .error "TypeError" := by
  refine ⟨?_, ?_, ?_, rfl⟩
  · rintro ⟨fs, r, rest, rfs, hv, hd, hr, -⟩
    cases hv
    simp [lookupField] at hd
    obtain ⟨h5, -⟩ := hd
    rw [← h5] at hr
    exact Json.noConfusion hr
  · rintro ⟨fs, dfs, hv, hd, -⟩
    cases hv
    simp [lookupField] at hd
  · rintro ⟨fs, hv, hd⟩
    cases hv
    simp [lookupField] at hd

/-- C7 (amended): `normalize` applied to a value matching none of the
three envelope shapes returns that value unchanged and never raises,
provided that when `data` is present as a non-empty array its first
element is an object or array; a primitive first element instead makes
the shape test throw a `TypeError`. -/
theorem C7_normalize_passthrough (v : Json)
    (hcol : ¬ isCollectionEnvelope v) (hsing : ¬ isSingleEnvelope v)
    (hempty : ¬ isEmptyEnvelope v) (hprim : firstDataElementNotPrimitive v) :
    normalizeResponse v = .ok v := by
  cases v with
  | obj fs =>
      cases hd : lookupField fs (chars "data") with
      | none =>
          simp [normalizeResponse, isJsonApiList, isJsonApiSingle, hd]
      | some d =>
          cases d with
          | arr xs =>
              cases xs with
              | nil => exact absurd ⟨fs, rfl, hd⟩ hempty
              | cons r rest =>
                  rcases hprim fs r rest rfl hd with ⟨rfs, hr⟩ | ⟨ys, hr⟩
                  · subst hr
                    have hattr : rfs.any (fun p => p.1 = chars "attributes") = false := by
                      by_contra hc
                      exact hcol ⟨fs, _, rest, rfs, rfl, hd, rfl,
                        Bool.eq_true_of_not_eq_false hc⟩
                    simp [normalizeResponse, isJsonApiList, isJsonApiSingle,
                      jsIn, hd, hattr, exceptBind_ok, exceptPure_eq]
                  · subst hr
                    simp [normalizeResponse, isJsonApiList, isJsonApiSingle,
                      jsIn, hd, exceptBind_ok, exceptPure_eq]
          | obj dfs =>
              have hattr : dfs.any (fun p => p.1 = chars "attributes") = false := by
                by_contra hc
                exact hsing ⟨fs, dfs, rfl, hd, Bool.eq_true_of_not_eq_false hc⟩
              simp [normalizeResponse, isJsonApiList, isJsonApiSingle, hd, hattr]
          | undef => simp [normalizeResponse, isJsonApiList, isJsonApiSingle, hd]
          | null => simp [normalizeResponse, isJsonApiList, isJsonApiSingle, hd]
          | bool b => simp [normalizeResponse, isJsonApiList, isJsonApiSingle, hd]
          | num n => simp [normalizeResponse, isJsonApiList, isJsonApiSingle, hd]
          | str s => simp [normalizeResponse, isJsonApiList, isJsonApiSingle, hd]
  | undef => rfl
  | null => rfl
  | bool b => rfl
  | num n => rfl
  | str s => rfl
  | arr xs => rfl

/-- C7 witness: a plain value with no `data` field passes through. -/
theorem C7_normalize_passthrough_witness :
    normalizeResponse (.num 7) = .ok (.num 7) :=
  C7_normalize_passthrough (.num 7)
    (by rintro ⟨fs, r, rest, rfs, hv, -⟩; cases hv)
    (by rintro ⟨fs, dfs, hv, -⟩; cases hv)
    (by rintro ⟨fs, hv, -⟩; cases hv)
    (by intro fs r rest hv; cases hv)

/-! ## Claim C4 -/

/-- A collection envelope whose single record's attribute bag carries an
`id` attribute differing from the record's identifier. -/
def collidingEnvelope : Json :=
  .obj [(chars "data", .arr [
    .obj [(chars "id", .str (chars "a")),
          (chars "attributes", .obj [(chars "id", .str (chars "b"))])]])]

/-- C4 counterexample: on a collection envelope whose record has
identifier "a" but whose attribute bag also carries id "b", the
canonical record produced by `normalize` carries id "b" — it does not
contain the source record's identifier. -/
theorem C4_source_identifier_lost :
    normalizeResponse collidingEnvelope = .ok (.obj [
      (chars "items", .arr [.obj [(chars "id", .str (chars "b"))]]),
      (chars "total", .num 1),
      (chars "cursor", .undef)]) ∧
    chars "a" ≠ chars "b" :=
  ⟨rfl, by decide⟩

/-- C4 (amended): for every collection envelope whose `data` is a
non-empty array of N records each an object carrying an attribute bag,
`normalize` produces exactly the N flattened records in input order.
Each canonical record contains an `id` field, and that field equals the
source record's identifier whenever the record's attribute bag has no
attribute named `id` (a same-named attribute overwrites it). `total` is
read from `meta?.page?.total` when that is non-nullish and otherwise
defaults to N, and the pagination cursor `meta?.page?.cursor` is carried
through verbatim. -/
theorem C4_normalize_collection (fs : List (List Char × Json))
    (records : List Json) (r0 : Json) (rs : List Json)
    (hrec : records = r0 :: rs)
    (hdata : lookupField fs (chars "data") = some (.arr records))
    (hbags : ∀ r ∈ records, ∃ rfs, r = .obj rfs ∧
      rfs.any (fun p => p.1 = chars "attributes") = true) :
    normalizeResponse (.obj fs) = .ok (.obj [
      (chars "items", .arr (records.map flattenRecord)),
      (chars "total", coalesce
        (optChain (optChain (jsGet (.obj fs) (chars "meta")) (chars "page"))
          (chars "total"))
        (.num (records.map flattenRecord).length)),
      (chars "cursor",
        optChain (optChain (jsGet (.obj fs) (chars "meta")) (chars "page"))
          (chars "cursor"))]) ∧
    (records.map flattenRecord).length = records.length ∧
    (∀ r ∈ records, ∃ ofs, flattenRecord r = .obj ofs ∧
      ofs.any (fun p => p.1 = chars "id") = true) ∧
    (∀ r ∈ records, ∀ rfs rid attrs, r = .obj rfs →
      lookupField rfs (chars "id") = some rid →
      lookupField rfs (chars "attributes") = some (.obj attrs) →
      (∀ p ∈ attrs, p.1 ≠ chars "id") →
      jsGet (flattenRecord r) (chars "id") = rid) := by
  subst hrec
  obtain ⟨rfs0, hr0, hattr0⟩ := hbags r0 (by simp)
  subst hr0
  refine ⟨?_, by simp, fun r _ => flatten_has_id_key r, ?_⟩
  · simp [normalizeResponse, isJsonApiList, isJsonApiSingle, jsIn, hdata,
      hattr0, exceptBind_ok, exceptPure_eq]
  · intro r _ rfs rid attrs hr hid hattrs hfree
    subst hr
    exact flatten_id_of_no_collision rfs rid attrs hid hattrs hfree

/-- C4 witness: a concrete two-record envelope with a `meta.page.total`
of 10 and a cursor. -/
theorem C4_normalize_collection_witness :
    normalizeResponse (.obj [
      (chars "data", .arr [
        .obj [(chars "id", .str (chars "r1")),
              (chars "attributes", .obj [(chars "name", .str (chars "n1"))])],
        .obj [(chars "id", .str (chars "r2")),
              (chars "attributes", .obj [(chars "name", .str (chars "n2"))])]]),
      (chars "meta", .obj [(chars "page", .obj [
        (chars "cursor", .str (chars "abc")), (chars "total", .num 10)])])]) =
      .ok (.obj [
        (chars "items", .arr [
          .obj [(chars "id", .str (chars "r1")), (chars "name", .str (chars "n1"))],
          .obj [(chars "id", .str (chars "r2")), (chars "name", .str (chars "n2"))]]),
        (chars "total", .num 10),
        (chars "cursor", .str (chars "abc"))]) := by
  have h := (C4_normalize_collection
    [(chars "data", .arr [
        .obj [(chars "id", .str (chars "r1")),
              (chars "attributes", .obj [(chars "name", .str (chars "n1"))])],
        .obj [(chars "id", .str (chars "r2")),
              (chars "attributes", .obj [(chars "name", .str (chars "n2"))])]]),
      (chars "meta", .obj [(chars "page", .obj [
        (chars "cursor", .str (chars "abc")), (chars "total", .num 10)])])]
    _ _ _ rfl rfl (by
      intro r hr
      simp only [List.mem_cons, List.not_mem_nil, or_false] at hr
      rcases hr with rfl | rfl
      · exact ⟨_, rfl, by decide⟩
      · exact ⟨_, rfl, by decide⟩)).1
  rw [h]
  rfl

/-! ## `JSON.parse`

Model of the ECMAScript JSON grammar on the fragment `JSON.stringify`
emits for `Json` values: literals, integer numerals, strings with the
standard escapes (unicode escapes restricted to scalar values, which
covers every escape the serializer produces), and whitespace-separated
arrays and objects. The parser is fuelled; the entry point supplies
fuel larger than any value the input can denote. -/

/-- JSON whitespace. -/
def isWsChar (c : Char) : Bool := c = ' ' || c = '\n' || c = '\t' || c = '\r'

/-- Drop leading JSON whitespace. -/
def skipWs (s : List Char) : List Char := s.dropWhile isWsChar

/-- Value of one hexadecimal digit. -/
def hexVal (c : Char) : Option Nat :=
  if '0' ≤ c ∧ c ≤ '9' then some (c.toNat - 48)
  else if 'a' ≤ c ∧ c ≤ 'f' then some (c.toNat - 87)
  else if 'A' ≤ c ∧ c ≤ 'F' then some (c.toNat - 55)
  else none

/-- One step bound of the fuelled string-literal parser below. -/
def parseStrBodyF : Nat → List Char → Option (List Char × List Char)
  | 0, _ => none
  | fuel + 1, s =>
      match s with
      | [] => none
      | c :: r =>
          if c = '"' then some ([], r)
          else if c = '\\' then
            match r.head? with
            | none => none
            | some e =>
                if e = '"' then
                  (parseStrBodyF fuel r.tail).map (fun p => ('"' :: p.1, p.2))
                else if e = '\\' then
                  (parseStrBodyF fuel r.tail).map (fun p => ('\\' :: p.1, p.2))
                else if e = '/' then
                  (parseStrBodyF fuel r.tail).map (fun p => ('/' :: p.1, p.2))
                else if e = 'b' then
                  (parseStrBodyF fuel r.tail).map (fun p => ('\x08' :: p.1, p.2))
                else if e = 'f' then
                  (parseStrBodyF fuel r.tail).map (fun p => ('\x0c' :: p.1, p.2))
                else if e = 'n' then
                  (parseStrBodyF fuel r.tail).map (fun p => ('\n' :: p.1, p.2))
                else if e = 'r' then
                  (parseStrBodyF fuel r.tail).map (fun p => ('\r' :: p.1, p.2))
                else if e = 't' then
                  (parseStrBodyF fuel r.tail).map (fun p => ('\t' :: p.1, p.2))
                else if e = 'u' then
                  match r.tail.take 4 with
                  | [h1, h2, h3, h4] =>
                      match hexVal h1, hexVal h2, hexVal h3, hexVal h4 with
                      | some a, some b, some c2, some d =>
                          let n := ((a * 16 + b) * 16 + c2) * 16 + d
                          if n.isValidChar then
                            (parseStrBodyF fuel (r.tail.drop 4)).map
                              (fun p => (Char.ofNat n :: p.1, p.2))
                          else none
                      | _, _, _, _ => none
                  | _ => none
                else none
          else if c.toNat < 32 then none
          else (parseStrBodyF fuel r).map (fun p => (c :: p.1, p.2))

/-- Parse the body of a string literal after the opening quote, up to
and including the closing quote; returns the decoded characters and the
remaining input. The fuel bound exceeds any possible number of decoding
steps. -/
def parseStrBody (s : List Char) : Option (List Char × List Char) :=
  parseStrBodyF (s.length + 1) s

/-- Numeric value of a digit string, most significant digit first. -/
def parseNatChars (ds : List Char) : Nat :=
  ds.foldl (fun a c => a * 10 + (c.toNat - 48)) 0

/-- Parse an integer numeral (optional minus sign, then digits). -/
def parseNumber (s : List Char) : Option (Json × List Char) :=
  if s.head? = some '-' then
    let ds := s.tail.takeWhile Char.isDigit
    if ds = [] then none
    else some (.num (-(parseNatChars ds : Int)), s.tail.dropWhile Char.isDigit)
  else
    let ds := s.takeWhile Char.isDigit
    if ds = [] then none
    else some (.num (parseNatChars ds), s.dropWhile Char.isDigit)

mutual

/-- Parse one JSON value; the input must start with a non-whitespace
character. -/
def parseVal : Nat → List Char → Option (Json × List Char)
  | 0, _ => none
  | fuel + 1, s =>
      match s with
      | [] => none
      | c :: r =>
          if c = '"' then (parseStrBody r).map (fun p => (.str p.1, p.2))
          else if c = '[' then
            let r2 := skipWs r
            if r2.head? = some ']' then some (.arr [], r2.tail)
            else (parseItems fuel r2).map (fun p => (.arr p.1, p.2))
          else if c = '{' then
            let r2 := skipWs r
            if r2.head? = some '}' then some (.obj [], r2.tail)
            else (parseMembers fuel r2).map (fun p => (.obj p.1, p.2))
          else if c = 'n' then
            if r.take 3 = ['u', 'l', 'l'] then some (.null, r.drop 3) else none
          else if c = 't' then
            if r.take 3 = ['r', 'u', 'e'] then some (.bool true, r.drop 3)
            else none
          else if c = 'f' then
            if r.take 4 = ['a', 'l', 's', 'e'] then some (.bool false, r.drop 4)
            else none
          else parseNumber s

/-- Parse the elements of a non-empty array after the opening bracket
(and leading whitespace), up to and including the closing bracket. -/
def parseItems : Nat → List Char → Option (List Json × List Char)
  | 0, _ => none
  | fuel + 1, s => do
      let (v, r1) ← parseVal fuel s
      let r2 := skipWs r1
      if r2.head? = some ',' then do
        let (vs, r3) ← parseItems fuel (skipWs r2.tail)
        return (v :: vs, r3)
      else if r2.head? = some ']' then return ([v], r2.tail)
      else none

/-- Parse the members of a non-empty object after the opening brace (and
leading whitespace), up to and including the closing brace. -/
def parseMembers : Nat → List Char → Option (List (List Char × Json) × List Char)
  | 0, _ => none
  | fuel + 1, s =>
      match s with
      | [] => none
      | c :: r =>
          if c = '"' then do
            let (k, r1) ← parseStrBody r
            let r2 := skipWs r1
            if r2.head? = some ':' then do
              let (v, r3) ← parseVal fuel (skipWs r2.tail)
              let r4 := skipWs r3
              if r4.head? = some ',' then do
                let (ms, r5) ← parseMembers fuel (skipWs r4.tail)
                return ((k, v) :: ms, r5)
              else if r4.head? = some '}' then return ([(k, v)], r4.tail)
              else none
            else none
          else none

end

/-- `JSON.parse(text)` on the grammar fragment above: parse one value
surrounded by optional whitespace and require the whole input to be
consumed. -/
def jsonParse (s : List Char) : Option Json :=
  match parseVal (s.length + 1) (skipWs s) with
  | some (v, r) => if skipWs r = [] then some v else none
  | none => none

/-! ## Round-trip infrastructure: serializer unfoldings and measures -/

/-- The serialized elements of an array at depth `ind` (an `undefined`
element renders as `null`). -/
def serItems (ind : Nat) (xs : List Json) : List (List Char) :=
  xs.map (fun x => (serVal ind x).getD (chars "null"))

/-- The serialized members of an object at depth `ind` (members whose
value serializes to nothing are skipped). -/
def serMembers (ind : Nat) (fs : List (List Char × Json)) : List (List Char) :=
  fs.filterMap (fun p => (serVal ind p.2).map
    (fun s => quoteJson p.1 ++ chars ": " ++ s))

theorem serVal_arr_cons (ind : Nat) (x : Json) (xs : List Json) :
    serVal ind (.arr (x :: xs)) = some ('[' :: '\n' :: indentChars (ind + 1) ++
      List.intercalate (',' :: '\n' :: indentChars (ind + 1))
        (serItems (ind + 1) (x :: xs)) ++
      '\n' :: indentChars ind ++ [']']) := by
  have h := List.attach_map_coe (x :: xs)
    (fun y => (serVal (ind + 1) y).getD (chars "null"))
  rw [serVal, serItems, h]

theorem serVal_obj_eq (ind : Nat) (fs : List (List Char × Json)) :
    serVal ind (.obj fs) =
      match serMembers (ind + 1) fs with
      | [] => some ['{', '}']
      | members =>
          some ('{' :: '\n' :: indentChars (ind + 1) ++
            List.intercalate (',' :: '\n' :: indentChars (ind + 1)) members ++
            '\n' :: indentChars ind ++ ['}']) := by
  rw [serVal]
  have hmem : (fs.attach.map
      (fun p => (serVal (ind + 1) p.1.2).map
        (fun s => quoteJson p.1.1 ++ chars ": " ++ s))).reduceOption =
      serMembers (ind + 1) fs := by
    have h := List.attach_map_coe fs
      (fun q => (serVal (ind + 1) q.2).map
        (fun s => quoteJson q.1 ++ chars ": " ++ s))
    rw [h, List.reduceOption, List.filterMap_map, serMembers]
    rfl
  rw [hmem]
  cases serMembers (ind + 1) fs <;> rfl

/-- No `undefined` occurs anywhere in the value. -/
def noUndef : Json → Bool
  | .undef => false
  | .null => true
  | .bool _ => true
  | .num _ => true
  | .str _ => true
  | .arr xs => xs.attach.all (fun x => noUndef x.1)
  | .obj fs => fs.attach.all (fun p => noUndef p.1.2)
termination_by v => sizeOf v
decreasing_by
  · exact Nat.lt_trans (List.sizeOf_lt_of_mem x.2) (by simp)
  · exact Nat.lt_trans (sizeOf_snd_lt_of_mem p.2) (by simp)

theorem noUndef_arr_iff (xs : List Json) :
    noUndef (.arr xs) = true ↔ ∀ x ∈ xs, noUndef x = true := by
  rw [noUndef, List.all_eq_true]
  constructor
  · intro h x hx
    exact h ⟨x, hx⟩ (List.mem_attach _ _)
  · intro h y _
    exact h y.1 y.2

theorem noUndef_obj_iff (fs : List (List Char × Json)) :
    noUndef (.obj fs) = true ↔ ∀ p ∈ fs, noUndef p.2 = true := by
  rw [noUndef, List.all_eq_true]
  constructor
  · intro h p hp
    exact h ⟨p, hp⟩ (List.mem_attach _ _)
  · intro h y _
    exact h y.1 y.2

/-- Fuel measure for the parser: enough recursion depth to reparse the
value. -/
def sizeJ : Json → Nat
  | .undef => 1
  | .null => 1
  | .bool _ => 1
  | .num _ => 1
  | .str _ => 1
  | .arr xs => 2 + (xs.attach.map (fun x => sizeJ x.1 + 1)).sum
  | .obj fs => 2 + (fs.attach.map (fun p => sizeJ p.1.2 + 1)).sum
termination_by v => sizeOf v
decreasing_by
  · exact Nat.lt_trans (List.sizeOf_lt_of_mem x.2) (by simp)
  · exact Nat.lt_trans (sizeOf_snd_lt_of_mem p.2) (by simp)

/-- Fuel measure for a list of array elements. -/
def sizeItems (xs : List Json) : Nat := 1 + (xs.map (fun x => sizeJ x + 1)).sum

/-- Fuel measure for a list of object members. -/
def sizeFields (fs : List (List Char × Json)) : Nat :=
  1 + (fs.map (fun p => sizeJ p.2 + 1)).sum

theorem sizeJ_arr (xs : List Json) : sizeJ (.arr xs) = 1 + sizeItems xs := by
  have h := List.attach_map_coe xs (fun x => sizeJ x + 1)
  rw [sizeJ, sizeItems, h]
  omega

theorem sizeJ_obj (fs : List (List Char × Json)) :
    sizeJ (.obj fs) = 1 + sizeFields fs := by
  have h := List.attach_map_coe fs (fun p => sizeJ p.2 + 1)
  rw [sizeJ, sizeFields, h]
  omega

theorem sizeItems_cons (x : Json) (xs : List Json) :
    sizeItems (x :: xs) = (sizeJ x + 1) + sizeItems xs := by
  rw [sizeItems, sizeItems, List.map_cons, List.sum_cons]
  omega

theorem sizeFields_cons (p : List Char × Json) (fs : List (List Char × Json)) :
    sizeFields (p :: fs) = (sizeJ p.2 + 1) + sizeFields fs := by
  rw [sizeFields, sizeFields, List.map_cons, List.sum_cons]
  omega

theorem sizeJ_pos (v : Json) : 1 ≤ sizeJ v := by
  cases v <;> rw [sizeJ] <;> omega

/-! ## Number printing and parsing lemmas -/

/-- The continuation after a printed value never starts with a digit
(so numeral parsing stops exactly at the value boundary). -/
def noDigitHead (rest : List Char) : Prop :=
  ∀ c, rest.head? = some c → c.isDigit = false

theorem decChar_spec (d : Nat) (h : d < 10) :
    (decChar d).isDigit = true ∧ (decChar d).toNat = 48 + d := by
  interval_cases d <;> exact ⟨rfl, rfl⟩

theorem digit_facts {c : Char} (h : c.isDigit = true) :
    c ≠ '"' ∧ c ≠ '[' ∧ c ≠ '{' ∧ c ≠ 'n' ∧ c ≠ 't' ∧ c ≠ 'f' ∧ c ≠ '-' ∧
    isWsChar c = false ∧ c ≠ ']' ∧ c ≠ '}' ∧ c ≠ ',' := by
  refine ⟨?_, ?_, ?_, ?_, ?_, ?_, ?_, ?_, ?_, ?_, ?_⟩
  case _ => rintro rfl; exact absurd h (by decide)
  case _ => rintro rfl; exact absurd h (by decide)
  case _ => rintro rfl; exact absurd h (by decide)
  case _ => rintro rfl; exact absurd h (by decide)
  case _ => rintro rfl; exact absurd h (by decide)
  case _ => rintro rfl; exact absurd h (by decide)
  case _ => rintro rfl; exact absurd h (by decide)
  case _ =>
      simp only [isWsChar, Bool.or_eq_false_iff, decide_eq_false_iff_not]
      refine ⟨⟨⟨?_, ?_⟩, ?_⟩, ?_⟩ <;> (rintro rfl; exact absurd h (by decide))
  case _ => rintro rfl; exact absurd h (by decide)
  case _ => rintro rfl; exact absurd h (by decide)
  case _ => rintro rfl; exact absurd h (by decide)

theorem printNat_ne_nil (n : Nat) : printNat n ≠ [] := by
  rw [printNat]
  split
  · simp
  · rename_i h
    simp only [ne_eq, List.reverse_eq_nil_iff, List.map_eq_nil_iff]
    exact Nat.digits_ne_nil_iff_ne_zero.mpr h

theorem mem_printNat_isDigit (n : Nat) : ∀ c ∈ printNat n, c.isDigit = true := by
  intro c hc
  rw [printNat] at hc
  split at hc
  · rw [List.mem_singleton] at hc
    subst hc
    rfl
  · rw [List.mem_reverse] at hc
    rcases List.mem_map.mp hc with ⟨d, hd, hcd⟩
    have := (decChar_spec d (Nat.digits_lt_base (by norm_num) hd)).1
    rw [← hcd]
    exact this

theorem foldr_mul_add_eq_ofDigits (l : List Nat) :
    l.foldr (fun d acc => acc * 10 + d) 0 = Nat.ofDigits 10 l := by
  induction l with
  | nil => simp [Nat.ofDigits]
  | cons d t ih =>
      rw [List.foldr_cons, ih, Nat.ofDigits_cons]
      ring

theorem foldr_decChar_digits (l : List Nat) (h : ∀ d ∈ l, d < 10) :
    l.foldr (fun d acc => acc * 10 + ((decChar d).toNat - 48)) 0 =
      l.foldr (fun d acc => acc * 10 + d) 0 := by
  induction l with
  | nil => rfl
  | cons d t ih =>
      rw [List.foldr_cons, List.foldr_cons, ih (fun e he => h e (by simp [he]))]
      have := (decChar_spec d (h d (by simp))).2
      omega

theorem parseNatChars_printNat (n : Nat) : parseNatChars (printNat n) = n := by
  rw [parseNatChars, printNat]
  split
  · rename_i h0
    subst h0
    rfl
  · rw [List.foldl_reverse, List.foldr_map,
      foldr_decChar_digits _ (fun d hd => Nat.digits_lt_base (by norm_num) hd),
      foldr_mul_add_eq_ofDigits, Nat.ofDigits_digits]

theorem takeWhile_digits_append (l r : List Char)
    (hl : ∀ c ∈ l, c.isDigit = true) (hr : noDigitHead r) :
    (l ++ r).takeWhile Char.isDigit = l ∧
    (l ++ r).dropWhile Char.isDigit = r := by
  induction l with
  | nil =>
      simp only [List.nil_append]
      cases r with
      | nil => simp
      | cons c t =>
          have := hr c rfl
          simp [List.takeWhile_cons, List.dropWhile_cons, this]
  | cons a l ih =>
      have ha := hl a (by simp)
      obtain ⟨h1, h2⟩ := ih (fun c hc => hl c (by simp [hc]))
      simp [List.takeWhile_cons, List.dropWhile_cons, ha, h1, h2]

theorem parseNumber_printInt (n : Int) (rest : List Char)
    (hrest : noDigitHead rest) :
    parseNumber (printInt n ++ rest) = some (.num n, rest) := by
  cases n with
  | ofNat m =>
      show parseNumber (printNat m ++ rest) = _
      obtain ⟨c, t, hct⟩ := List.exists_cons_of_ne_nil (printNat_ne_nil m)
      have hcdig : c.isDigit = true :=
        mem_printNat_isDigit m c (by rw [hct]; exact List.mem_cons_self _ _)
      obtain ⟨htake, hdrop⟩ :=
        takeWhile_digits_append (printNat m) rest (mem_printNat_isDigit m) hrest
      rw [parseNumber, if_neg (by
        rw [hct]
        simp only [List.cons_append, List.head?_cons, Option.some.injEq]
        exact (digit_facts hcdig).2.2.2.2.2.2.1)]
      rw [htake, hdrop, if_neg (by simp [printNat_ne_nil m])]
      rw [parseNatChars_printNat]
      rfl
  | negSucc k =>
      show parseNumber (('-' :: printNat (k + 1)) ++ rest) = _
      obtain ⟨htake, hdrop⟩ :=
        takeWhile_digits_append (printNat (k + 1)) rest
          (mem_printNat_isDigit (k + 1)) hrest
      rw [List.cons_append, parseNumber, if_pos (by simp), List.tail_cons,
        htake, hdrop, if_neg (by simp [printNat_ne_nil (k + 1)]),
        parseNatChars_printNat]
      simp [Int.negSucc_eq]

/-! ## String escaping round trip -/

theorem hexVal_hexChar (d : Nat) (h : d < 16) : hexVal (hexChar d) = some d := by
  interval_cases d <;> rfl

theorem escChar_length_pos (c : Char) : 1 ≤ (escChar c).length := by
  rw [escChar]
  split_ifs <;> simp

theorem length_le_flatMap_escChar (cs : List Char) :
    cs.length ≤ (cs.flatMap escChar).length := by
  induction cs with
  | nil => simp
  | cons c cs ih =>
      rw [List.flatMap_cons, List.length_append, List.length_cons]
      have := escChar_length_pos c
      omega

theorem parseStrBodyF_escape (cs : List Char) : ∀ (fuel : Nat) (rest : List Char),
    cs.length + 1 ≤ fuel →
    parseStrBodyF fuel (cs.flatMap escChar ++ '"' :: rest) = some (cs, rest) := by
  induction cs with
  | nil =>
      intro fuel rest hfuel
      cases fuel with
      | zero => omega
      | succ f => simp [parseStrBodyF]
  | cons c cs ih =>
      intro fuel rest hfuel
      cases fuel with
      | zero => omega
      | succ f =>
          have hrec := ih f rest (by simp at hfuel; omega)
          rw [List.flatMap_cons, List.append_assoc]
          by_cases h1 : c = '"'
          · subst h1
            rw [show escChar '"' = ['\\', '"'] from rfl]
            simp [parseStrBodyF, hrec]
          by_cases h2 : c = '\\'
          · subst h2
            rw [show escChar '\\' = ['\\', '\\'] from rfl]
            simp [parseStrBodyF, hrec]
          by_cases h3 : c = '\x08'
          · subst h3
            rw [show escChar '\x08' = ['\\', 'b'] from rfl]
            simp [parseStrBodyF, hrec]
          by_cases h4 : c = '\x0c'
          · subst h4
            rw [show escChar '\x0c' = ['\\', 'f'] from rfl]
            simp [parseStrBodyF, hrec]
          by_cases h5 : c = '\n'
          · subst h5
            rw [show escChar '\n' = ['\\', 'n'] from rfl]
            simp [parseStrBodyF, hrec]
          by_cases h6 : c = '\r'
          · subst h6
            rw [show escChar '\r' = ['\\', 'r'] from rfl]
            simp [parseStrBodyF, hrec]
          by_cases h7 : c = '\t'
          · subst h7
            rw [show escChar '\t' = ['\\', 't'] from rfl]
            simp [parseStrBodyF, hrec]
          by_cases hctl : c.toNat < 32
          · rw [escChar, if_neg h1, if_neg h2, if_neg h3, if_neg h4, if_neg h5,
              if_neg h6, if_neg h7, if_pos hctl]
            have hhi : c.toNat / 16 < 16 := by omega
            have hlo : c.toNat % 16 < 16 := by omega
            simp only [List.cons_append, List.nil_append, parseStrBodyF,
              List.head?_cons, List.tail_cons, List.take_succ_cons, List.take_zero,
              List.drop_succ_cons, List.drop_zero, reduceIte,
              show hexVal '0' = some 0 from rfl, hexVal_hexChar _ hhi,
              hexVal_hexChar _ hlo]
            have harith : ((0 * 16 + 0) * 16 + c.toNat / 16) * 16 + c.toNat % 16 =
                c.toNat := by omega
            rw [harith, if_pos (Or.inl (by omega) : Nat.isValidChar c.toNat),
              Char.ofNat_toNat, hrec]
            rfl
          · rw [escChar, if_neg h1, if_neg h2, if_neg h3, if_neg h4, if_neg h5,
              if_neg h6, if_neg h7, if_neg hctl, List.singleton_append]
            simp only [parseStrBodyF]
            rw [if_neg h1, if_neg h2, if_neg hctl, hrec]
            rfl

theorem parseStrBody_escape (cs : List Char) (rest : List Char) :
    parseStrBody (cs.flatMap escChar ++ '"' :: rest) = some (cs, rest) := by
  rw [parseStrBody]
  apply parseStrBodyF_escape
  have := length_le_flatMap_escChar cs
  simp only [List.length_append, List.length_cons]
  omega

/-! ## Whitespace lemmas -/

theorem skipWs_cons_not (c : Char) (l : List Char) (h : isWsChar c = false) :
    skipWs (c :: l) = c :: l := by
  simp [skipWs, List.dropWhile_cons, h]

theorem skipWs_newline (l : List Char) : skipWs ('\n' :: l) = skipWs l := by
  simp [skipWs, List.dropWhile_cons, isWsChar]

theorem skipWs_space (l : List Char) : skipWs (' ' :: l) = skipWs l := by
  simp [skipWs, List.dropWhile_cons, isWsChar]

theorem skipWs_indent (k : Nat) (l : List Char) :
    skipWs (indentChars k ++ l) = skipWs l := by
  rw [indentChars]
  induction 2 * k with
  | zero => rfl
  | succ m ih =>
      rw [List.replicate_succ, List.cons_append, skipWs_space]
      exact ih

/-! ## Round trip: atoms -/

theorem intercalate_single (sep a : List Char) :
    List.intercalate sep [a] = a := by
  simp [List.intercalate]

theorem intercalate_cons_cons (sep a b : List Char) (l : List (List Char)) :
    List.intercalate sep (a :: b :: l) = a ++ sep ++ List.intercalate sep (b :: l) := by
  simp [List.intercalate, List.intersperse]

theorem optBind_some {A B : Type} (a : A) (f : A → Option B) :
    (some a >>= f) = f a := rfl

theorem printInt_head (n : Int) : ∃ c t, printInt n = c :: t ∧ c ≠ '"' ∧
    c ≠ '[' ∧ c ≠ '{' ∧ c ≠ 'n' ∧ c ≠ 't' ∧ c ≠ 'f' ∧ isWsChar c = false ∧
    c ≠ ']' ∧ c ≠ '}' ∧ c ≠ ',' := by
  cases n with
  | ofNat m =>
      obtain ⟨c, t, hct⟩ := List.exists_cons_of_ne_nil (printNat_ne_nil m)
      have hd : c.isDigit = true :=
        mem_printNat_isDigit m c (by rw [hct]; exact List.mem_cons_self _ _)
      obtain ⟨a1, a2, a3, a4, a5, a6, -, a8, a9, a10, a11⟩ := digit_facts hd
      exact ⟨c, t, hct, a1, a2, a3, a4, a5, a6, a8, a9, a10, a11⟩
  | negSucc k =>
      exact ⟨'-', printNat (k + 1), rfl, by decide, by decide, by decide,
        by decide, by decide, by decide, by decide, by decide, by decide,
        by decide⟩

theorem parseVal_null (fuel : Nat) (rest : List Char) (hf : 1 ≤ fuel) :
    parseVal fuel (chars "null" ++ rest) = some (.null, rest) := by
  cases fuel with
  | zero => omega
  | succ f =>
      show parseVal (f + 1) ('n' :: 'u' :: 'l' :: 'l' :: rest) = _
      simp [parseVal]

theorem parseVal_bool (b : Bool) (fuel : Nat) (rest : List Char) (hf : 1 ≤ fuel) :
    parseVal fuel ((if b then chars "true" else chars "false") ++ rest) =
      some (.bool b, rest) := by
  cases fuel with
  | zero => omega
  | succ f =>
      cases b with
      | true =>
          show parseVal (f + 1) ('t' :: 'r' :: 'u' :: 'e' :: rest) = _
          simp [parseVal]
      | false =>
          show parseVal (f + 1) ('f' :: 'a' :: 'l' :: 's' :: 'e' :: rest) = _
          simp [parseVal]

theorem parseVal_num (n : Int) (fuel : Nat) (rest : List Char) (hf : 1 ≤ fuel)
    (hrest : noDigitHead rest) :
    parseVal fuel (printInt n ++ rest) = some (.num n, rest) := by
  cases fuel with
  | zero => omega
  | succ f =>
      obtain ⟨c, t, hct, h1, h2, h3, h4, h5, h6, -, -, -, -⟩ := printInt_head n
      rw [hct, List.cons_append]
      simp only [parseVal]
      rw [if_neg h1, if_neg h2, if_neg h3, if_neg h4, if_neg h5, if_neg h6,
        ← List.cons_append, ← hct]
      exact parseNumber_printInt n rest hrest

theorem parseVal_str (s : List Char) (fuel : Nat) (rest : List Char)
    (hf : 1 ≤ fuel) :
    parseVal fuel (quoteJson s ++ rest) = some (.str s, rest) := by
  cases fuel with
  | zero => omega
  | succ f =>
      rw [quoteJson]
      simp only [List.cons_append, List.append_assoc, List.singleton_append]
      simp only [parseVal, reduceIte, List.nil_append]
      rw [parseStrBody_escape]
      rfl

/-! ## Round trip: value heads -/

theorem serVal_head (ind : Nat) (v : Json) (out : List Char)
    (h : serVal ind v = some out) :
    ∃ c t, out = c :: t ∧ isWsChar c = false ∧ c ≠ ']' ∧ c ≠ '}' := by
  cases v with
  | undef => rw [serVal] at h; cases h
  | null =>
      rw [serVal] at h
      injection h with h
      exact ⟨'n', _, by rw [← h]; rfl, by decide, by decide, by decide⟩
  | bool b =>
      rw [serVal] at h
      injection h with h
      cases b with
      | true => exact ⟨'t', _, by rw [← h]; rfl, by decide, by decide, by decide⟩
      | false => exact ⟨'f', _, by rw [← h]; rfl, by decide, by decide, by decide⟩
  | num n =>
      rw [serVal] at h
      injection h with h
      obtain ⟨c, t, hct, -, -, -, -, -, -, hws, hrb, hcb, -⟩ := printInt_head n
      exact ⟨c, t, by rw [← h, hct], hws, hrb, hcb⟩
  | str s =>
      rw [serVal] at h
      injection h with h
      exact ⟨'"', _, by rw [← h]; rfl, by decide, by decide, by decide⟩
  | arr xs =>
      cases xs with
      | nil =>
          rw [serVal] at h
          injection h with h
          exact ⟨'[', _, by rw [← h]; rfl, by decide, by decide, by decide⟩
      | cons x xs =>
          rw [serVal_arr_cons] at h
          injection h with h
          subst h
          exact ⟨'[', _, rfl, by decide, by decide, by decide⟩
  | obj fs =>
      rw [serVal_obj_eq] at h
      cases hm : serMembers (ind + 1) fs with
      | nil =>
          rw [hm] at h
          injection h with h
          subst h
          exact ⟨'{', _, rfl, by decide, by decide, by decide⟩
      | cons m ms =>
          rw [hm] at h
          injection h with h
          subst h
          exact ⟨'{', _, rfl, by decide, by decide, by decide⟩

theorem serVal_some (ind : Nat) (v : Json) (h : noUndef v = true) :
    ∃ out, serVal ind v = some out := by
  cases v with
  | undef => rw [noUndef] at h; cases h
  | null => exact ⟨_, by rw [serVal]⟩
  | bool b => exact ⟨_, by rw [serVal]⟩
  | num n => exact ⟨_, by rw [serVal]⟩
  | str s => exact ⟨_, by rw [serVal]⟩
  | arr xs =>
      cases xs with
      | nil => exact ⟨_, by rw [serVal]⟩
      | cons x xs => exact ⟨_, serVal_arr_cons ind x xs⟩
  | obj fs =>
      rw [serVal_obj_eq]
      cases hm : serMembers (ind + 1) fs with
      | nil => exact ⟨_, rfl⟩
      | cons m ms => exact ⟨_, rfl⟩

theorem serVal_eq_none (ind : Nat) (v : Json) (h : serVal ind v = none) :
    v = .undef := by
  cases v with
  | undef => rfl
  | null => rw [serVal] at h; cases h
  | bool b => rw [serVal] at h; cases h
  | num n => rw [serVal] at h; cases h
  | str s => rw [serVal] at h; cases h
  | arr xs =>
      cases xs with
      | nil => rw [serVal] at h; cases h
      | cons x xs => rw [serVal_arr_cons] at h; cases h
  | obj fs =>
      rw [serVal_obj_eq] at h
      cases hm : serMembers (ind + 1) fs with
      | nil => rw [hm] at h; cases h
      | cons m ms => rw [hm] at h; cases h

/-! ## Round trip: composite values -/

/-- A serialized value reparses to itself, leaving the following input
intact, whenever the fuel covers the value's size and the following
input does not begin with a digit. -/
def ParsesBack (v : Json) : Prop :=
  ∀ ind out rest fuel, serVal ind v = some out → sizeJ v ≤ fuel →
    noDigitHead rest → parseVal fuel (out ++ rest) = some (v, rest)

theorem noDigitHead_cons (c : Char) (h : c.isDigit = false) (l : List Char) :
    noDigitHead (c :: l) := by
  intro e he
  simp only [List.head?_cons, Option.some.injEq] at he
  rw [← he]
  exact h

theorem intercalate_head (sep a : List Char) (l : List (List Char)) :
    ∃ t2, List.intercalate sep (a :: l) = a ++ t2 := by
  cases l with
  | nil => exact ⟨[], by rw [intercalate_single, List.append_nil]⟩
  | cons b m => exact ⟨_, by rw [intercalate_cons_cons, List.append_assoc]⟩

theorem serItems_cons_of_some (ind : Nat) (x : Json) (xs : List Json)
    (sx : List Char) (h : serVal ind x = some sx) :
    serItems ind (x :: xs) = sx :: serItems ind xs := by
  simp [serItems, h]

theorem parseItems_round (ind indC : Nat) (xs : List Json) : xs ≠ [] →
    (∀ x ∈ xs, noUndef x = true ∧ ParsesBack x) →
    ∀ (fuel : Nat) (rest : List Char), sizeItems xs ≤ fuel →
    parseItems fuel
      (List.intercalate (',' :: '\n' :: indentChars ind) (serItems ind xs) ++
        ('\n' :: (indentChars indC ++ ']' :: rest))) = some (xs, rest) := by
  induction xs with
  | nil => intro h; exact absurd rfl h
  | cons x xs ih =>
      intro _ hmem fuel rest hfuel
      obtain ⟨hnux, hpbx⟩ := hmem x (List.mem_cons_self _ _)
      obtain ⟨sx, hsx⟩ := serVal_some ind x hnux
      have hsize1 : 1 ≤ sizeJ x := sizeJ_pos x
      rw [sizeItems_cons] at hfuel
      have hpos : 1 ≤ sizeItems xs := by rw [sizeItems]; omega
      cases fuel with
      | zero => omega
      | succ f =>
          rw [serItems_cons_of_some ind x xs sx hsx]
          cases xs with
          | nil =>
              rw [show serItems ind ([] : List Json) = [] from rfl,
                intercalate_single]
              have hv := hpbx ind sx ('\n' :: (indentChars indC ++ ']' :: rest))
                f hsx (by simp [sizeItems] at hfuel; omega)
                (noDigitHead_cons '\n' (by decide) _)
              simp only [parseItems, hv, optBind_some]
              rw [skipWs_newline, skipWs_indent,
                skipWs_cons_not ']' rest (by decide), List.head?_cons,
                if_neg (by decide), if_pos rfl, List.tail_cons]
              rfl
          | cons y ys =>
              obtain ⟨hnuy, -⟩ := hmem y (by simp)
              obtain ⟨sy, hsy⟩ := serVal_some ind y hnuy
              obtain ⟨cy, ty, hcty, hwsy, -, -⟩ := serVal_head ind y sy hsy
              rw [serItems_cons_of_some ind y ys sy hsy, intercalate_cons_cons]
              simp only [List.append_assoc, List.cons_append]
              have hv := hpbx ind sx
                (',' :: ('\n' :: (indentChars ind ++
                  (List.intercalate (',' :: '\n' :: indentChars ind)
                    (sy :: serItems ind ys) ++
                    ('\n' :: (indentChars indC ++ ']' :: rest)))))) f hsx
                (by omega) (noDigitHead_cons ',' (by decide) _)
              simp only [parseItems, hv, optBind_some]
              rw [skipWs_cons_not ',' _ (by decide)]
              rw [List.head?_cons, if_pos rfl, List.tail_cons]
              rw [skipWs_newline, skipWs_indent]
              obtain ⟨t2, ht2⟩ :=
                intercalate_head (',' :: '\n' :: indentChars ind) sy
                  (serItems ind ys)
              have hskipJ : skipWs
                  (List.intercalate (',' :: '\n' :: indentChars ind)
                    (sy :: serItems ind ys) ++
                    ('\n' :: (indentChars indC ++ ']' :: rest))) =
                  List.intercalate (',' :: '\n' :: indentChars ind)
                    (sy :: serItems ind ys) ++
                    ('\n' :: (indentChars indC ++ ']' :: rest)) := by
                rw [ht2, hcty]
                simp only [List.cons_append]
                exact skipWs_cons_not cy _ hwsy
              rw [hskipJ]
              have hrec := ih (by simp)
                (fun z hz => hmem z (List.mem_cons_of_mem x hz)) f rest
                (by omega)
              rw [serItems_cons_of_some ind y ys sy hsy] at hrec
              rw [hrec]
              rfl

theorem serMembers_cons_of_some (ind : Nat) (p : List Char × Json)
    (fs : List (List Char × Json)) (sv : List Char)
    (h : serVal ind p.2 = some sv) :
    serMembers ind (p :: fs) =
      (quoteJson p.1 ++ chars ": " ++ sv) :: serMembers ind fs := by
  simp [serMembers, List.filterMap_cons, h]

theorem parseMembers_round (ind indC : Nat) (fs : List (List Char × Json)) :
    fs ≠ [] →
    (∀ p ∈ fs, noUndef p.2 = true ∧ ParsesBack p.2) →
    ∀ (fuel : Nat) (rest : List Char), sizeFields fs ≤ fuel →
    parseMembers fuel
      (List.intercalate (',' :: '\n' :: indentChars ind) (serMembers ind fs) ++
        ('\n' :: (indentChars indC ++ '}' :: rest))) = some (fs, rest) := by
  induction fs with
  | nil => intro h; exact absurd rfl h
  | cons p fs ih =>
      intro _ hmem fuel rest hfuel
      obtain ⟨hnup, hpbp⟩ := hmem p (List.mem_cons_self _ _)
      obtain ⟨sv, hsv⟩ := serVal_some ind p.2 hnup
      have hsize1 : 1 ≤ sizeJ p.2 := sizeJ_pos p.2
      rw [sizeFields_cons] at hfuel
      have hpos : 1 ≤ sizeFields fs := by rw [sizeFields]; omega
      cases fuel with
      | zero => omega
      | succ f =>
          rw [serMembers_cons_of_some ind p fs sv hsv]
          have hkey : ∀ (X : List Char),
              (quoteJson p.1 ++ chars ": " ++ sv) ++ X =
              '"' :: (p.1.flatMap escChar ++ '"' ::
                (':' :: (' ' :: (sv ++ X)))) := by
            intro X
            rw [quoteJson, show chars ": " = [':', ' '] from rfl]
            simp [List.append_assoc]
          cases fs with
          | nil =>
              rw [show serMembers ind ([] : List (List Char × Json)) = []
                from rfl, intercalate_single, hkey]
              have hv := hpbp ind sv ('\n' :: (indentChars indC ++ '}' :: rest))
                f hsv (by simp [sizeFields] at hfuel; omega)
                (noDigitHead_cons '\n' (by decide) _)
              obtain ⟨cv, tv, hctv, hwsv, -, -⟩ := serVal_head ind p.2 sv hsv
              have hskipv : skipWs (sv ++ ('\n' :: (indentChars indC ++
                  '}' :: rest))) = sv ++ ('\n' :: (indentChars indC ++
                  '}' :: rest)) := by
                rw [hctv]
                simp only [List.cons_append]
                exact skipWs_cons_not cv _ hwsv
              simp only [parseMembers, reduceIte]
              rw [parseStrBody_escape]
              simp only [optBind_some]
              rw [skipWs_cons_not ':' _ (by decide), List.head?_cons,
                if_pos rfl, List.tail_cons, skipWs_space, hskipv, hv]
              simp only [optBind_some]
              rw [skipWs_newline, skipWs_indent,
                skipWs_cons_not '}' rest (by decide), List.head?_cons,
                if_neg (by decide), if_pos rfl, List.tail_cons]
              rfl
          | cons q qs =>
              obtain ⟨hnuq, -⟩ := hmem q (by simp)
              obtain ⟨sq, hsq⟩ := serVal_some ind q.2 hnuq
              rw [serMembers_cons_of_some ind q qs sq hsq,
                intercalate_cons_cons, List.append_assoc, List.append_assoc,
                hkey]
              have hrec := ih (by simp)
                (fun z hz => hmem z (List.mem_cons_of_mem p hz)) f rest
                (by omega)
              rw [serMembers_cons_of_some ind q qs sq hsq] at hrec
              have hv := hpbp ind sv
                ((',' :: '\n' :: indentChars ind) ++
                  (List.intercalate (',' :: '\n' :: indentChars ind)
                    ((quoteJson q.1 ++ chars ": " ++ sq) :: serMembers ind qs) ++
                    ('\n' :: (indentChars indC ++ '}' :: rest)))) f hsv
                (by omega) (noDigitHead_cons ',' (by decide) _)
              obtain ⟨cv, tv, hctv, hwsv, -, -⟩ := serVal_head ind p.2 sv hsv
              have hskipv : ∀ (X : List Char), skipWs (sv ++ X) = sv ++ X := by
                intro X
                rw [hctv]
                simp only [List.cons_append]
                exact skipWs_cons_not cv _ hwsv
              have hheadm : ∃ Z, List.intercalate (',' :: '\n' :: indentChars ind)
                  ((quoteJson q.1 ++ chars ": " ++ sq) :: serMembers ind qs) ++
                  ('\n' :: (indentChars indC ++ '}' :: rest)) = '"' :: Z := by
                obtain ⟨t2, ht2⟩ := intercalate_head
                  (',' :: '\n' :: indentChars ind)
                  (quoteJson q.1 ++ chars ": " ++ sq) (serMembers ind qs)
                refine ⟨q.1.flatMap escChar ++ '"' :: (chars ": " ++ (sq ++ (t2 ++
                  ('\n' :: (indentChars indC ++ '}' :: rest))))), ?_⟩
                rw [ht2, quoteJson]
                simp [List.append_assoc]
              obtain ⟨Z, hZ⟩ := hheadm
              simp only [parseMembers, reduceIte]
              rw [parseStrBody_escape]
              simp only [optBind_some]
              rw [skipWs_cons_not ':' _ (by decide), List.head?_cons,
                if_pos rfl, List.tail_cons, skipWs_space, hskipv, hv]
              simp only [optBind_some, List.cons_append]
              rw [skipWs_cons_not ',' _ (by decide), List.head?_cons,
                if_pos rfl, List.tail_cons, skipWs_newline, skipWs_indent,
                hZ, skipWs_cons_not '"' Z (by decide), ← hZ, hrec]
              rfl

theorem serVal_obj_cons (ind : Nat) (fs : List (List Char × Json))
    (m : List Char) (ms : List (List Char))
    (h : serMembers (ind + 1) fs = m :: ms) :
    serVal ind (.obj fs) = some ('{' :: '\n' :: indentChars (ind + 1) ++
      List.intercalate (',' :: '\n' :: indentChars (ind + 1)) (m :: ms) ++
      '\n' :: indentChars ind ++ ['}']) := by
  rw [serVal_obj_eq, h]

theorem serVal_obj_nil_members (ind : Nat) (fs : List (List Char × Json))
    (h : serMembers (ind + 1) fs = []) :
    serVal ind (.obj fs) = some ['{', '}'] := by
  rw [serVal_obj_eq, h]

/-! ## Fuel bound from serialized length -/

theorem sizeItems_le_joined (ind : Nat) (xs : List Json) : xs ≠ [] →
    (∀ x ∈ xs, noUndef x = true ∧
      (∀ ind2 out2, serVal ind2 x = some out2 → sizeJ x ≤ out2.length + 1)) →
    sizeItems xs ≤
      (List.intercalate (',' :: '\n' :: indentChars ind)
        (serItems ind xs)).length + 3 := by
  induction xs with
  | nil => intro h; exact absurd rfl h
  | cons x xs ih =>
      intro _ hmem
      obtain ⟨hnux, hszx⟩ := hmem x (List.mem_cons_self _ _)
      obtain ⟨sx, hsx⟩ := serVal_some ind x hnux
      have hb := hszx ind sx hsx
      rw [serItems_cons_of_some ind x xs sx hsx, sizeItems_cons]
      cases xs with
      | nil =>
          rw [show serItems ind ([] : List Json) = [] from rfl,
            intercalate_single]
          rw [sizeItems]
          simp
          omega
      | cons y ys =>
          obtain ⟨hnuy, -⟩ := hmem y (by simp)
          obtain ⟨sy, hsy⟩ := serVal_some ind y hnuy
          rw [serItems_cons_of_some ind y ys sy hsy, intercalate_cons_cons]
          have hihy := ih (by simp) (fun z hz => hmem z (List.mem_cons_of_mem x hz))
          rw [serItems_cons_of_some ind y ys sy hsy] at hihy
          simp only [List.length_append, List.length_cons]
          omega

theorem sizeFields_le_joined (ind : Nat) (fs : List (List Char × Json)) :
    fs ≠ [] →
    (∀ p ∈ fs, noUndef p.2 = true ∧
      (∀ ind2 out2, serVal ind2 p.2 = some out2 → sizeJ p.2 ≤ out2.length + 1)) →
    sizeFields fs ≤
      (List.intercalate (',' :: '\n' :: indentChars ind)
        (serMembers ind fs)).length + 3 := by
  induction fs with
  | nil => intro h; exact absurd rfl h
  | cons p fs ih =>
      intro _ hmem
      obtain ⟨hnup, hszp⟩ := hmem p (List.mem_cons_self _ _)
      obtain ⟨sv, hsv⟩ := serVal_some ind p.2 hnup
      have hb := hszp ind sv hsv
      rw [serMembers_cons_of_some ind p fs sv hsv, sizeFields_cons]
      cases fs with
      | nil =>
          rw [show serMembers ind ([] : List (List Char × Json)) = []
            from rfl, intercalate_single]
          rw [sizeFields]
          simp only [List.length_append, List.map_nil, List.sum_nil]
          omega
      | cons q qs =>
          obtain ⟨hnuq, -⟩ := hmem q (by simp)
          obtain ⟨sq, hsq⟩ := serVal_some ind q.2 hnuq
          rw [serMembers_cons_of_some ind q qs sq hsq, intercalate_cons_cons]
          have hihq := ih (by simp) (fun z hz => hmem z (List.mem_cons_of_mem p hz))
          rw [serMembers_cons_of_some ind q qs sq hsq] at hihq
          simp only [List.length_append, List.length_cons]
          omega

theorem serVal_size_le (v : Json) : noUndef v = true →
    ∀ ind out, serVal ind v = some out → sizeJ v ≤ out.length + 1 := by
  induction v using Json.recAll with
  | hundef => intro h; rw [noUndef] at h; cases h
  | hnull => intro _ ind out _; rw [sizeJ]; omega
  | hbool b => intro _ ind out _; rw [sizeJ]; omega
  | hnum n => intro _ ind out _; rw [sizeJ]; omega
  | hstr s => intro _ ind out _; rw [sizeJ]; omega
  | harr xs hIH =>
      intro hnu ind out hser
      cases xs with
      | nil =>
          rw [serVal] at hser
          injection hser with hser
          subst hser
          rw [sizeJ_arr, sizeItems]
          simp
          decide
      | cons x xs =>
          rw [serVal_arr_cons] at hser
          injection hser with hser
          subst hser
          rw [sizeJ_arr]
          have hj := sizeItems_le_joined (ind + 1) (x :: xs) (by simp)
            (fun z hz => ⟨(noUndef_arr_iff _).mp hnu z hz,
              hIH z hz ((noUndef_arr_iff _).mp hnu z hz)⟩)
          simp only [List.length_append, List.length_cons]
          omega
  | hobj fs hIH =>
      intro hnu ind out hser
      cases hm : serMembers (ind + 1) fs with
      | nil =>
          rw [serVal_obj_nil_members ind fs hm] at hser
          injection hser with hser
          subst hser
          -- with no undefined members, an empty member list forces fs = []
          cases fs with
          | nil =>
              rw [sizeJ_obj, sizeFields]
              simp
          | cons p fs =>
              obtain ⟨sv, hsv⟩ := serVal_some (ind + 1) p.2
                ((noUndef_obj_iff _).mp hnu p (List.mem_cons_self _ _))
              rw [serMembers_cons_of_some (ind + 1) p fs sv hsv] at hm
              cases hm
      | cons m ms =>
          rw [serVal_obj_cons ind fs m ms hm] at hser
          injection hser with hser
          subst hser
          rw [sizeJ_obj]
          have hj := sizeFields_le_joined (ind + 1) fs
            (by intro hfs; rw [hfs] at hm; cases hm)
            (fun z hz => ⟨(noUndef_obj_iff _).mp hnu z hz,
              hIH z hz ((noUndef_obj_iff _).mp hnu z hz)⟩)
          rw [hm] at hj
          simp only [List.length_append, List.length_cons]
          omega

/-! ## The round trip -/

theorem serVal_parsesBack (v : Json) : noUndef v = true → ParsesBack v := by
  induction v using Json.recAll with
  | hundef => intro h; rw [noUndef] at h; cases h
  | hnull =>
      intro _ ind out rest fuel hser hfuel hrest
      rw [serVal] at hser
      injection hser with hser
      subst hser
      exact parseVal_null fuel rest (le_trans (sizeJ_pos _) hfuel)
  | hbool b =>
      intro _ ind out rest fuel hser hfuel hrest
      rw [serVal] at hser
      injection hser with hser
      subst hser
      exact parseVal_bool b fuel rest (le_trans (sizeJ_pos _) hfuel)
  | hnum n =>
      intro _ ind out rest fuel hser hfuel hrest
      rw [serVal] at hser
      injection hser with hser
      subst hser
      exact parseVal_num n fuel rest (le_trans (sizeJ_pos _) hfuel) hrest
  | hstr s =>
      intro _ ind out rest fuel hser hfuel hrest
      rw [serVal] at hser
      injection hser with hser
      subst hser
      exact parseVal_str s fuel rest (le_trans (sizeJ_pos _) hfuel)
  | harr xs hIH =>
      intro hnu ind out rest fuel hser hfuel hrest
      have hf1 : 1 ≤ fuel := le_trans (sizeJ_pos _) hfuel
      cases xs with
      | nil =>
          rw [serVal] at hser
          injection hser with hser
          subst hser
          cases fuel with
          | zero => omega
          | succ f =>
              show parseVal (f + 1) ('[' :: ']' :: rest) = _
              simp only [parseVal, reduceIte]
              rw [skipWs_cons_not ']' rest (by decide), List.head?_cons,
                if_pos rfl, List.tail_cons,
                if_neg (show ¬ (('[' : Char) = '\"') from by decide)]
      | cons x xs =>
          rw [serVal_arr_cons] at hser
          injection hser with hser
          subst hser
          rw [sizeJ_arr] at hfuel
          have hpos : 1 ≤ sizeItems (x :: xs) := by rw [sizeItems]; omega
          cases fuel with
          | zero => omega
          | succ f =>
              have hmem : ∀ z ∈ x :: xs, noUndef z = true ∧ ParsesBack z :=
                fun z hz => ⟨(noUndef_arr_iff _).mp hnu z hz,
                  hIH z hz ((noUndef_arr_iff _).mp hnu z hz)⟩
              have hnux := (hmem x (List.mem_cons_self _ _)).1
              obtain ⟨sx, hsx⟩ := serVal_some (ind + 1) x hnux
              obtain ⟨cx, tx, hctx, hwsx, hcxb, -⟩ :=
                serVal_head (ind + 1) x sx hsx
              simp only [List.cons_append, List.append_assoc,
                List.singleton_append, List.nil_append]
              simp only [parseVal, reduceIte]
              rw [if_neg (show ¬ (('[' : Char) = '\"') from by decide)]
              rw [skipWs_newline, skipWs_indent]
              have hheadJ : ∃ Z, List.intercalate
                  (',' :: '\n' :: indentChars (ind + 1))
                  (serItems (ind + 1) (x :: xs)) ++
                  ('\n' :: (indentChars ind ++ ']' :: rest)) = cx :: Z := by
                rw [serItems_cons_of_some (ind + 1) x xs sx hsx]
                obtain ⟨t2, ht2⟩ := intercalate_head
                  (',' :: '\n' :: indentChars (ind + 1)) sx
                  (serItems (ind + 1) xs)
                rw [ht2, hctx]
                exact ⟨tx ++ (t2 ++ ('\n' :: (indentChars ind ++ ']' :: rest))),
                  by simp [List.append_assoc]⟩
              obtain ⟨Z, hZ⟩ := hheadJ
              rw [hZ, skipWs_cons_not cx Z hwsx, List.head?_cons,
                if_neg (by simp only [Option.some.injEq]; exact hcxb), ← hZ]
              rw [parseItems_round (ind + 1) ind (x :: xs) (by simp) hmem f rest
                (by omega)]
              rfl
  | hobj fs hIH =>
      intro hnu ind out rest fuel hser hfuel hrest
      have hf1 : 1 ≤ fuel := le_trans (sizeJ_pos _) hfuel
      cases fs with
      | nil =>
          rw [serVal_obj_nil_members ind [] rfl] at hser
          injection hser with hser
          subst hser
          cases fuel with
          | zero => omega
          | succ f =>
              show parseVal (f + 1) ('{' :: '}' :: rest) = _
              simp only [parseVal, reduceIte]
              rw [skipWs_cons_not '}' rest (by decide), List.head?_cons,
                if_pos rfl, List.tail_cons,
                if_neg (show ¬ (('\x7b' : Char) = '\"') from by decide),
                if_neg (show ¬ (('\x7b' : Char) = '[') from by decide)]
      | cons p fs =>
          have hmem : ∀ z ∈ p :: fs, noUndef z.2 = true ∧ ParsesBack z.2 :=
            fun z hz => ⟨(noUndef_obj_iff _).mp hnu z hz,
              hIH z hz ((noUndef_obj_iff _).mp hnu z hz)⟩
          have hnup := (hmem p (List.mem_cons_self _ _)).1
          obtain ⟨sv, hsv⟩ := serVal_some (ind + 1) p.2 hnup
          have hm := serMembers_cons_of_some (ind + 1) p fs sv hsv
          rw [serVal_obj_cons ind (p :: fs) _ _ hm] at hser
          injection hser with hser
          subst hser
          rw [sizeJ_obj] at hfuel
          have hpos : 1 ≤ sizeFields (p :: fs) := by rw [sizeFields]; omega
          cases fuel with
          | zero => omega
          | succ f =>
              simp only [List.cons_append, List.append_assoc,
                List.singleton_append, List.nil_append]
              simp only [parseVal, reduceIte]
              rw [if_neg (show ¬ (('\x7b' : Char) = '\"') from by decide),
                if_neg (show ¬ (('\x7b' : Char) = '[') from by decide)]
              rw [skipWs_newline, skipWs_indent]
              have hheadJ : ∃ Z, List.intercalate
                  (',' :: '\n' :: indentChars (ind + 1))
                  ((quoteJson p.1 ++ (chars ": " ++ sv)) ::
                    serMembers (ind + 1) fs) ++
                  ('\n' :: (indentChars ind ++ '}' :: rest)) = '"' :: Z := by
                obtain ⟨t2, ht2⟩ := intercalate_head
                  (',' :: '\n' :: indentChars (ind + 1))
                  (quoteJson p.1 ++ (chars ": " ++ sv)) (serMembers (ind + 1) fs)
                refine ⟨p.1.flatMap escChar ++ '"' :: (chars ": " ++ (sv ++ (t2 ++
                  ('\n' :: (indentChars ind ++ '}' :: rest))))), ?_⟩
                rw [ht2, quoteJson]
                simp [List.append_assoc]
              obtain ⟨Z, hZ⟩ := hheadJ
              rw [hZ, skipWs_cons_not '"' Z (by decide), List.head?_cons,
                if_neg (by decide), ← hZ]
              have hround := parseMembers_round (ind + 1) ind (p :: fs) (by simp)
                hmem f rest (by omega)
              rw [serMembers_cons_of_some (ind + 1) p fs sv hsv] at hround
              simp only [List.append_assoc] at hround
              rw [hround]
              rfl

theorem jsonParse_serVal (v : Json) (out : List Char)
    (hnu : noUndef v = true) (hser : serVal 0 v = some out) :
    jsonParse out = some v := by
  rw [jsonParse]
  obtain ⟨c, t, hct, hws, -, -⟩ := serVal_head 0 v out hser
  have hskip : skipWs out = out := by
    rw [hct]
    exact skipWs_cons_not c t hws
  rw [hskip]
  have hsize := serVal_size_le v hnu 0 out hser
  have hpb := serVal_parsesBack v hnu 0 out [] (out.length + 1) hser
    (by omega) (by intro e he; simp at he)
  rw [List.append_nil] at hpb
  rw [hpb]
  rfl

/-- C8: for every canonical value (one with no `undefined` anywhere
inside, so `JSON.stringify` renders it) whose structured JSON-mode
rendering fits the character budget, `formatOutput` in JSON mode returns
the rendering unchanged, and parsing that output back as JSON yields a
value deep-equal to the input. -/
theorem C8_structured_roundtrip (v : Json) (out md : List Char)
    (hnu : noUndef v = true) (hser : jsonStringify v = some out)
    (hlen : out.length ≤ CHARACTER_LIMIT) :
    formatOutput v md .json = .ok out ∧ jsonParse out = some v := by
  constructor
  · have h1 : formatOutput v md .json =
        match jsonStringify v with
        | some text => .ok (truncateResponse text)
        | none => .error "TypeError" := rfl
    rw [h1, hser]
    show Except.ok (truncateResponse out) = Except.ok out
    rw [truncateResponse, if_pos hlen]
  · exact jsonParse_serVal v out hnu hser

/-- Concrete round trip through `formatOutput` and `jsonParse` on the
object with the single member "id": "a". -/
theorem C8_structured_roundtrip_witness :
    formatOutput (Json.obj [(chars "id", Json.str (chars "a"))]) [] .json
        = .ok ('{' :: '\n' :: indentChars 1 ++
          List.intercalate (',' :: '\n' :: indentChars 1)
            [quoteJson (chars "id") ++ chars ": " ++ quoteJson (chars "a")] ++
          '\n' :: indentChars 0 ++ ['}']) ∧
      jsonParse ('{' :: '\n' :: indentChars 1 ++
          List.intercalate (',' :: '\n' :: indentChars 1)
            [quoteJson (chars "id") ++ chars ": " ++ quoteJson (chars "a")] ++
          '\n' :: indentChars 0 ++ ['}']) =
        some (Json.obj [(chars "id", Json.str (chars "a"))]) := by
  have hm : serMembers 1 [(chars "id", Json.str (chars "a"))] =
      [quoteJson (chars "id") ++ chars ": " ++ quoteJson (chars "a")] := by
    rw [serMembers_cons_of_some 1 (chars "id", Json.str (chars "a")) []
      (quoteJson (chars "a")) (by rw [serVal])]
    rfl
  have hnu : noUndef (Json.obj [(chars "id", Json.str (chars "a"))]) = true :=
    (noUndef_obj_iff _).mpr (by
      intro p hp
      simp only [List.mem_singleton] at hp
      subst hp
      rw [noUndef])
  exact C8_structured_roundtrip _ _ [] hnu
    (serVal_obj_cons 0 _ _ _ hm) (by decide)

end Chorus
